import Mathlib

/-!
Verification of the layout/matrix converter, AI-client validation and
arrangement application of the seating-chart generator.

JavaScript strings are embedded as `List Char` (`Str`), with the string
operations used by the source (`split` on a single character, `join`/
`intercalate`, `trim`, `padEnd`) defined faithfully below.  Numeric grid
coordinates are embedded as `ℚ` (the source only performs exact additions,
halvings and small averages on them).  Desk ids (`desk-${Date.now()}`,
`desk-initial-${n}` strings in the source) are abstracted to `Nat`; nothing
in the source inspects an id beyond equality comparison.
-/

namespace SeatGen

/-- JS strings, embedded as lists of characters. -/
abbrev Str := List Char

/-- The `"--"` marker for an empty grid cell. -/
def dd : Str := ['-', '-']

/-- JS `s.split(sep)` for a single-character separator. -/
def jsSplit (sep : Char) : Str → List Str
  | [] => [[]]
  | a :: rest =>
    if a = sep then [] :: jsSplit sep rest
    else
      match jsSplit sep rest with
      | [] => [[a]]
      | r :: rs => (a :: r) :: rs

/-- JS `Array.prototype.join(sep)` on a list of strings. -/
def jsJoin (sep : Str) (l : List Str) : Str := List.intercalate sep l

/-- The whitespace test used by JS `trim` (restricted to the whitespace
characters that can actually occur in this code base). -/
def isWs (c : Char) : Bool := c = ' ' || c = '\n' || c = '\t' || c = '\r'

/-- JS `s.trim()`. -/
def jsTrim (s : Str) : Str :=
  ((s.dropWhile isWs).reverse.dropWhile isWs).reverse

/-- JS `s.padEnd(n)` (padding with spaces). -/
def padEnd (n : Nat) (s : Str) : Str := s ++ List.replicate (n - s.length) ' '

/-! ## Data model (src/types.ts) -/

/-- `LayoutObject` from `src/types.ts`.  The optional fields `rotation`,
`students` and `userBlockedSeats` are stored with their defaulted values
(the source always defaults them to `0` / `[]`). -/
structure LayoutObject where
  id : Nat
  type : Str
  x : ℚ
  y : ℚ
  width : ℚ
  height : ℚ
  rotation : ℚ := 0
  students : List (Option Str) := []
  userBlockedSeats : List Nat := []
deriving DecidableEq, Repr, Inhabited

/-! ## Constants and palette (src/components/LayoutEditor.tsx) -/

def DESK_WIDTH_UNITS : ℚ := 8

def DESK_HEIGHT_UNITS : ℚ := 4

/-- `PALETTE_DESKS`: typeCode together with (width, height) in grid units. -/
def PALETTE_DESKS : List (Str × ℚ × ℚ) :=
  [ (['1'], DESK_WIDTH_UNITS / 2, DESK_HEIGHT_UNITS),
    (['1', '1'], DESK_WIDTH_UNITS, DESK_HEIGHT_UNITS),
    (['1', '1', '1'], DESK_WIDTH_UNITS + DESK_WIDTH_UNITS / 2, DESK_HEIGHT_UNITS),
    (['1', '0', '1'], DESK_WIDTH_UNITS + DESK_WIDTH_UNITS / 2, DESK_HEIGHT_UNITS) ]

/-! ## Inverse conversion: `parseLayoutMatrixToObjects` -/

/-- One desk of `parseLayoutMatrixToObjects`, before the running id counter
is attached.  `deskConfig` is the palette entry for the trimmed cell text, or
the default `(DESK_WIDTH_UNITS, DESK_HEIGHT_UNITS)` size. -/
def parsedDesk (rowIndex colIndex : Nat) (t : Str) : LayoutObject :=
  let deskConfig :=
    match PALETTE_DESKS.find? (fun p => p.1 = t) with
    | some p => p.2
    | none => (DESK_WIDTH_UNITS, DESK_HEIGHT_UNITS)
  { id := 0
    type := t
    x := (colIndex : ℚ) * (DESK_WIDTH_UNITS + 2)
    y := (rowIndex : ℚ) * (DESK_HEIGHT_UNITS + 2)
    width := deskConfig.1
    height := deskConfig.2
    rotation := 0
    userBlockedSeats := [] }

/-- `parseLayoutMatrixToObjects` (LayoutEditor.tsx): split the text into
lines and comma-separated cells, skip blank and `"--"` cells, and build a
desk per remaining cell; ids are the values of the running counter. -/
def parseLayoutMatrixToObjects (matrix : Str) : List LayoutObject :=
  let rows := jsSplit '\n' (jsTrim matrix)
  let desks := rows.enum.flatMap fun ri =>
    (jsSplit ',' ri.2).enum.filterMap fun ci =>
      let trimmedDesk := jsTrim ci.2
      if trimmedDesk ≠ [] ∧ trimmedDesk ≠ dd then
        some (parsedDesk ri.1 ci.1 trimmedDesk)
      else none
  desks.enum.map fun p => { p.2 with id := p.1 }

/-! ## Forward conversion: `convertObjectsToLayoutMatrix` -/

/-- The comparator of the front-to-back UI sort (step A of the converter and
`sortedLayoutObjects` of the editor): negative means the first desk comes
first. -/
def cmpUI (a b : LayoutObject) : ℚ :=
  if |a.y - b.y| > DESK_HEIGHT_UNITS / 2 then b.y - a.y else a.x - b.x

/-- `[...objects].sort(cmpUI)`.  JS `Array.prototype.sort` is stable; it is
embedded as a stable insertion sort on the relation "may stay in front of",
i.e. `cmpUI a b ≤ 0`. -/
def uiSorted (objects : List LayoutObject) : List LayoutObject :=
  List.insertionSort (fun a b => cmpUI a b ≤ 0) objects

/-- `deskNumberMap`: desk id ↦ 1-based position in the UI sort order. -/
def deskNumberMap (objects : List LayoutObject) : List (Nat × Nat) :=
  (uiSorted objects).enum.map fun p => (p.2.id, p.1 + 1)

/-- `[...objects].sort((a, b) => a.y - b.y)` (step 1). -/
def sortedByY (objects : List LayoutObject) : List LayoutObject :=
  List.insertionSort (fun a b => a.y ≤ b.y) objects

/-- `currentRow.sort((a, b) => a.x - b.x)`. -/
def sortRowX (row : List LayoutObject) : List LayoutObject :=
  List.insertionSort (fun a b => a.x ≤ b.x) row

/-- The row-grouping loop of step 1: `first` is `currentRow[0]`, `acc` the
rest of the current row, and the third argument the remaining desks of the
y-sorted list. -/
def groupGo (first : LayoutObject) (acc : List LayoutObject) :
    List LayoutObject → List (List LayoutObject)
  | [] => [sortRowX (first :: acc)]
  | d :: rest =>
    if |(d.y + d.height / 2) - (first.y + first.height / 2)| < DESK_HEIGHT_UNITS then
      groupGo first (acc ++ [d]) rest
    else
      sortRowX (first :: acc) :: groupGo d [] rest

/-- The rows of step 1 (each sorted by ascending x). -/
def rowsOf (objects : List LayoutObject) : List (List LayoutObject) :=
  match sortedByY objects with
  | [] => []
  | d :: rest => groupGo d [] rest

/-- The variant of `groupGo` without the per-row x-sort; used to reason
about the row partition. -/
def groupGoRaw (first : LayoutObject) (acc : List LayoutObject) :
    List LayoutObject → List (List LayoutObject)
  | [] => [first :: acc]
  | d :: rest =>
    if |(d.y + d.height / 2) - (first.y + first.height / 2)| < DESK_HEIGHT_UNITS then
      groupGoRaw first (acc ++ [d]) rest
    else
      (first :: acc) :: groupGoRaw d [] rest

def rowsOfRaw (objects : List LayoutObject) : List (List LayoutObject) :=
  match sortedByY objects with
  | [] => []
  | d :: rest => groupGoRaw d [] rest

/-- `allDeskCenters`, deduplicated as a JS `Set` (first occurrences kept)
and sorted ascending (step 2). -/
def sortedUniqueCenters (objects : List LayoutObject) : List ℚ :=
  let allDeskCenters := objects.map fun d => d.x + d.width / 2
  let uniq := allDeskCenters.foldl (fun acc c => if c ∈ acc then acc else acc ++ [c]) []
  List.insertionSort (fun a b => a ≤ b) uniq

/-- The greedy clustering loop of step 2; `lastC` is the last element pushed
onto the current cluster `cur`. -/
def clusterGo (cur : List ℚ) (lastC : ℚ) : List ℚ → List (List ℚ)
  | [] => [cur]
  | c :: rest =>
    if c - lastC < DESK_WIDTH_UNITS / 2 then clusterGo (cur ++ [c]) c rest
    else cur :: clusterGo [c] c rest

/-- `columnCenters`: arithmetic mean of each cluster. -/
def columnCenters (objects : List LayoutObject) : List ℚ :=
  let clusters :=
    match sortedUniqueCenters objects with
    | [] => []
    | c :: rest => clusterGo [c] c rest
  clusters.map fun cl => cl.sum / (cl.length : ℚ)

def numColsOf (objects : List LayoutObject) : Nat :=
  if 0 < (columnCenters objects).length then (columnCenters objects).length else 1

/-- The `bestColIndex` loop of step 3: index of the first column center at
minimal distance from `deskCenter`; `none` iff there are no centers. -/
def bestCol (deskCenter : ℚ) (centers : List ℚ) : Option Nat :=
  (centers.enum.foldl
    (fun acc p =>
      match acc with
      | none => some (p.1, |deskCenter - p.2|)
      | some (bi, bd) =>
        if |deskCenter - p.2| < bd then some (p.1, |deskCenter - p.2|) else some (bi, bd))
    none).map Prod.fst

/-- Entries of the `positionMap`: `(row, col) ↦ deskId`.  The source keys
the map by the string `"{row}-{col}"`; that encoding is injective and is
only ever read back as the pair, so the key is embedded as the pair. -/
abbrev PosMap := List ((Nat × Nat) × Nat)

/-- JS object property write `positionMap[key] = v`: replaces the value of
an existing key in place, otherwise appends the new key (JS objects keep
insertion order for such keys). -/
def pmInsert (pm : PosMap) (k : Nat × Nat) (v : Nat) : PosMap :=
  if pm.any (fun e => e.1 = k) then pm.map (fun e => if e.1 = k then (k, v) else e)
  else pm ++ [(k, v)]

/-- The test `newRow[i] === '--' || newRow[i] === undefined`. -/
def cellFree (cells : List Str) (i : Nat) : Bool :=
  match cells[i]? with
  | some c => c = dd
  | none => true

/-- The fallback scan of step 3: first free slot among the first `numCols`
cells. -/
def findFreeSlot (cells : List Str) (numCols : Nat) : Option Nat :=
  (List.range numCols).find? fun i => cellFree cells i

/-- Placing one desk into the row being built (the body of `row.forEach`
in step 3). -/
def placeDesk (centers : List ℚ) (numCols rowIndex : Nat)
    (st : List Str × PosMap) (d : LayoutObject) : List Str × PosMap :=
  match bestCol (d.x + d.width / 2) centers with
  | none => st
  | some bestColIndex =>
    if cellFree st.1 bestColIndex then
      (st.1.set bestColIndex d.type, pmInsert st.2 (rowIndex, bestColIndex) d.id)
    else
      match findFreeSlot st.1 numCols with
      | some i => (st.1.set i d.type, pmInsert st.2 (rowIndex, i) d.id)
      | none => (st.1 ++ [d.type], pmInsert st.2 (rowIndex, st.1.length) d.id)

/-- One row of the layout grid together with the position-map entries it
contributes (the row starts as `Array(numCols).fill('--')`). -/
def rowResult (objects : List LayoutObject) (rowIndex : Nat)
    (row : List LayoutObject) : List Str × PosMap :=
  row.foldl (placeDesk (columnCenters objects) (numColsOf objects) rowIndex)
    (List.replicate (numColsOf objects) dd, [])

/-- `layoutGrid` of step 3 (before padding). -/
def layoutGridOf (objects : List LayoutObject) : List (List Str) :=
  (rowsOf objects).enum.map fun p => (rowResult objects p.1 p.2).1

/-- The `positionMap` accumulated over all rows (step 4). -/
def positionMapOf (objects : List LayoutObject) : PosMap :=
  ((rowsOf objects).enum.map fun p => (rowResult objects p.1 p.2).2).flatten

def maxRowLength (objects : List LayoutObject) : Nat :=
  (layoutGridOf objects).foldl (fun m row => max m row.length) 0

/-- `finalLayoutGrid`: every row padded with `"--"` to the common width. -/
def finalGridOf (objects : List LayoutObject) : List (List Str) :=
  (layoutGridOf objects).map fun row =>
    row ++ List.replicate (maxRowLength objects - row.length) dd

/-- Step 5: serialized matrix text. -/
def matrixOf (objects : List LayoutObject) : Str :=
  jsJoin ['\n'] ((finalGridOf objects).map (jsJoin [',']))

/-- The label `"L{n}"`. -/
def labelOf (n : Nat) : Str := 'L' :: (Nat.repr n).data

/-- `numberedGrid` of step B: each filled cell replaced by the label of the
desk owning it (via `positionMap` and `deskNumberMap`). -/
def numberedGridOf (objects : List LayoutObject) : List (List Str) :=
  (finalGridOf objects).enum.map fun rp =>
    rp.2.enum.map fun cp =>
      if cp.2 ≠ dd then
        match List.lookup (rp.1, cp.1) (positionMapOf objects) with
        | some deskId =>
          match List.lookup deskId (deskNumberMap objects) with
          | some deskNumber => labelOf deskNumber
          | none => dd
        | none => dd
      else dd

/-- The label shown for a desk id by `numberedGrid` (the inner lookup of the
desk number in `deskNumberMap`). -/
def numLabelOf (objects : List LayoutObject) (deskId : Nat) : Str :=
  match List.lookup deskId (deskNumberMap objects) with
  | some deskNumber => labelOf deskNumber
  | none => dd

/-- The serialized numbered matrix (cells padded to width 5). -/
def numberedMatrixOf (objects : List LayoutObject) : Str :=
  jsJoin ['\n'] ((numberedGridOf objects).map fun row => jsJoin [','] (row.map (padEnd 5)))

/-- The record returned by `convertObjectsToLayoutMatrix`. -/
structure ConvResult where
  matrix : Str
  layout : List (List Str)
  positionMap : PosMap
  numberedMatrix : Str
deriving DecidableEq, Repr

/-- `convertObjectsToLayoutMatrix` (LayoutEditor.tsx): the two degenerate
early returns, then the assembly of matrix, padded grid, position map and
numbered matrix from the intermediate steps above. -/
def convertObjectsToLayoutMatrix (objects : List LayoutObject) : ConvResult :=
  if objects.length = 0 then ⟨[], [], [], []⟩
  else if (rowsOf objects).length = 0 then ⟨[], [], [], []⟩
  else
    ⟨matrixOf objects, finalGridOf objects, positionMapOf objects, numberedMatrixOf objects⟩

/-! ## AI client (src/services/geminiService.ts)

The network transport and `JSON.parse` are the boundary: the model takes an
`Except Unit Json` — `.error ()` for any exception thrown while calling the
service or parsing its text (the whole `try` body up to `JSON.parse`), and
`.ok parsed` for a successfully parsed response value of arbitrary shape. -/

/-- JSON values (the dynamically-typed `parsed` object). -/
inductive Json where
  | null : Json
  | bool (b : Bool) : Json
  | num (q : ℚ) : Json
  | str (s : Str) : Json
  | arr (items : List Json) : Json
  | obj (fields : List (Str × Json)) : Json

/-- JS truthiness of a JSON value (`NaN` cannot arise from `JSON.parse`). -/
def Json.truthy : Json → Bool
  | .null => false
  | .bool b => b
  | .num q => q ≠ 0
  | .str s => s ≠ []
  | .arr _ => true
  | .obj _ => true

/-- JS property read `j.k`: `Json.null` doubles as `undefined` (both are
falsy and fail `Array.isArray`, the only uses made of the value). -/
def Json.getField (j : Json) (k : Str) : Json :=
  match j with
  | .obj fields => match fields.lookup k with | some v => v | none => .null
  | _ => .null

def Json.isArr : Json → Bool
  | .arr _ => true
  | _ => false

/-- The generic failure message of the `catch` block. -/
def commErrorMsg : Str :=
  "Při komunikaci s AI službou nastala chyba. Zkuste to prosím znovu.".data

/-- The return value `{ seating, error }` of `generateSeatingArrangement`.
`none` stands for JS `null`; the `error` slot carries whatever value the
source puts there. -/
structure AiResult where
  seating : Option Json
  error : Option Json

/-- `generateSeatingArrangement` (geminiService.ts), from the point where
the transport outcome is known: a transport/parse exception yields the
generic communication-error result; a truthy `error` field is propagated;
a missing or non-array `seating` field raises the "invalid format" `Error`
— which the function's own `catch` immediately converts into the same
generic communication-error result; otherwise the seating is returned with
a null error. -/
def generateSeatingArrangement (outcome : Except Unit Json) : AiResult :=
  match outcome with
  | .error _ => { seating := none, error := some (.str commErrorMsg) }
  | .ok parsed =>
    if (parsed.getField "error".data).truthy then
      { seating := none, error := some (parsed.getField "error".data) }
    else if ¬((parsed.getField "seating".data).truthy ∧
        (parsed.getField "seating".data).isArr) then
      { seating := none, error := some (.str commErrorMsg) }
    else
      { seating := some (parsed.getField "seating".data), error := none }

/-! ## App layer (the root component, `handleGenerateClick` and the
application of an AI result) -/

/-- A seat entry of the AI seating matrix: a string, or any non-string
value (`null`, numbers, …), which the application step coerces to `null`. -/
inductive SeatVal where
  | str (s : Str) : SeatVal
  | other : SeatVal
deriving DecidableEq, Repr

/-- `s => typeof s === 'string' ? s : null`. -/
def coerceSeat : SeatVal → Option Str
  | .str s => some s
  | .other => none

/-- A seating matrix conforming to the response schema: rows of desk
entries, each `null` (no desk) or a list of seat entries. -/
abbrev Seating := List (List (Option (List SeatVal)))

/-- `populatedLayoutObjects.find(obj => obj.id === objectId)` followed by
the mutation of its `students` field: updates the first match only. -/
def setStudentsFirst (objId : Nat) (sts : List (Option Str)) :
    List LayoutObject → List LayoutObject
  | [] => []
  | o :: rest =>
    if o.id = objId then { o with students := sts } :: rest
    else o :: setStudentsFirst objId sts rest

/-- The application loop of `handleGenerateClick` (lines 542–564): reset
every desk's `students`, then for every non-null cell of the result look up
the owning desk through the position map and write the coerced seat list. -/
def applySeating (layoutObjects : List LayoutObject) (positionMap : PosMap)
    (seating : Seating) : List LayoutObject :=
  let populated := layoutObjects.map fun o => { o with students := ([] : List (Option Str)) }
  seating.enum.foldl
    (fun acc rp =>
      rp.2.enum.foldl
        (fun acc cp =>
          match cp.2 with
          | none => acc
          | some deskStudents =>
            match List.lookup (rp.1, cp.1) positionMap with
            | none => acc
            | some objectId => setStudentsFirst objectId (deskStudents.map coerceSeat) acc)
        acc)
    populated

/-- `potentialSeats` for one desk: count of `'1'` if any, else count of
`'0'`. -/
def potentialSeats (t : Str) : Nat :=
  if t.any (fun c => c = '1') then t.countP (fun c => c = '1')
  else t.countP (fun c => c = '0')

/-- The `availableSeats` accumulation of `handleGenerateClick` (JS numbers
can go negative, hence `Int`). -/
def availableSeats (layoutObjects : List LayoutObject) : Int :=
  layoutObjects.foldl
    (fun acc d =>
      if d.type ≠ dd then
        acc + ((potentialSeats d.type : Int) - (d.userBlockedSeats.length : Int))
      else acc)
    0

/-- `"Rozložení lavic je prázdné. …"`. -/
def emptyLayoutMsg : Str := "Rozložení lavic je prázdné. Přidejte lavice v editoru.".data

/-- `"Seznam žáků je prázdný."`. -/
def emptyRosterMsg : Str := "Seznam žáků je prázdný.".data

/-- `"Nedostatek míst. …"` with the two interpolated counts. -/
def insufficientMsg (pocetZaku : Nat) (pocetMist : Int) : Str :=
  "Nedostatek míst. Počet žáků (".data ++ (Nat.repr pocetZaku).data ++
    ") přesahuje počet dostupných míst (".data ++ (toString pocetMist).data ++ ").".data

/-- JS `[...new Set(l)]`: deduplication keeping first occurrences. -/
def jsDedup (l : List Str) : List Str :=
  l.foldl (fun acc s => if s ∈ acc then acc else acc ++ [s]) []

/-- The text rendered for one desk of the current arrangement
(`"[Jméno, prázdné]"`-style). -/
def arrangementCellText (students : List (Option Str)) : Str :=
  if students.length ≠ 0 then
    '[' :: jsJoin (", ".data)
      (students.map fun s =>
        match s with
        | some t => if t = [] then "prázdné".data else t
        | none => "prázdné".data) ++ [']']
  else "[prázdná]".data

/-- The current-arrangement matrix of the modification branch. -/
def currentArrangementMatrixOf (layout : List (List Str)) (positionMap : PosMap)
    (finalArrangement : List LayoutObject) : Str :=
  let base := layout.map fun row => row.map fun cell =>
    if cell = dd then dd else "[prázdná]".data
  let grid := finalArrangement.foldl
    (fun grid desk =>
      match positionMap.find? (fun e => e.2 = desk.id) with
      | none => grid
      | some e =>
        grid.set e.1.1 ((grid.getD e.1.1 []).set e.1.2 (arrangementCellText desk.students)))
    base
  jsJoin ['\n'] (grid.map fun row => jsJoin [' '] (row.map (padEnd 25)))

/-- The outcome of `handleGenerateClick` up to the AI call: either a local
validation error (state update `setError msg`, no network call), or the
arguments handed to `generateSeatingArrangement` (the free-text conditions
are not modelled; no claim concerns them). -/
inductive GenOutcome where
  | localError (msg : Str) : GenOutcome
  | aiCall (matrix : Str) (students : List Str) (numberedMatrix : Str)
      (currentArrangementMatrix : Option Str) : GenOutcome
deriving DecidableEq, Repr

/-- `handleGenerateClick` (lines 435–538) up to the AI call:
layout-emptiness check, then — in generation mode (`finalArrangement` is
`null`) — the roster parse, the empty-roster check and the seat-count
check; in modification mode the roster and current-arrangement matrix are
derived from the existing arrangement. -/
def handleGenerateClick (layoutObjects : List LayoutObject) (students : Str)
    (finalArrangement : Option (List LayoutObject)) : GenOutcome :=
  let conv := convertObjectsToLayoutMatrix layoutObjects
  if conv.matrix = [] ∨ conv.layout.length = 0 then .localError emptyLayoutMsg
  else
    match finalArrangement with
    | some arrangement =>
      let studentList := jsDedup ((arrangement.flatMap fun d =>
        d.students).filterMap fun s =>
          match s with
          | some t => if jsTrim t ≠ [] then some t else none
          | none => none)
      .aiCall conv.matrix studentList conv.numberedMatrix
        (some (currentArrangementMatrixOf conv.layout conv.positionMap arrangement))
    | none =>
      let studentList := (jsSplit '\n' (jsTrim students)).filter fun s => jsTrim s ≠ []
      if studentList.length = 0 then .localError emptyRosterMsg
      else if (studentList.length : Int) > availableSeats layoutObjects then
        .localError (insufficientMsg studentList.length (availableSeats layoutObjects))
      else .aiCall conv.matrix studentList conv.numberedMatrix none

/-! ## Editor drop handler (LayoutEditor.tsx) -/

/-- `checkCollision`: does the candidate rectangle strictly overlap any
other desk's rectangle (half-open interval test on both axes)? -/
def checkCollision (newDesk : LayoutObject) (existingDesks : List LayoutObject) : Bool :=
  existingDesks.any fun desk =>
    desk.id ≠ newDesk.id ∧
      newDesk.x < desk.x + desk.width ∧ newDesk.x + newDesk.width > desk.x ∧
      newDesk.y < desk.y + desk.height ∧ newDesk.y + newDesk.height > desk.y

/-- The data captured at drag start: palette template (`isNew`) or an
existing desk's id. -/
structure DragData where
  type : Str
  width : ℚ
  height : ℚ
  isNew : Bool
  id : Option Nat
deriving DecidableEq, Repr

/-- The candidate `newDesk` assembled by `handleDrop`. -/
def droppedDesk (drag : DragData) (gridX gridY : ℚ) (freshId : Nat) : LayoutObject :=
  { id := drag.id.getD freshId, type := drag.type, x := gridX, y := gridY,
    width := drag.width, height := drag.height, rotation := 0, userBlockedSeats := [] }

/-- `handleDrop` (LayoutEditor.tsx), from the already-computed grid drop
position (the `clientX`/`clientY` pixel arithmetic is the DOM boundary):
builds the candidate desk (`freshId` plays the role of
`desk-${Date.now()}`), rejects silently on collision, otherwise appends a
new desk or moves the existing one (preserving its rotation, size and
blocked seats). -/
def handleDrop (drag : DragData) (gridX gridY : ℚ) (freshId : Nat)
    (layoutObjects : List LayoutObject) : List LayoutObject :=
  let newDesk : LayoutObject := droppedDesk drag gridX gridY freshId
  let otherDesks := layoutObjects.filter fun d => d.id ≠ newDesk.id
  if checkCollision newDesk otherDesks then layoutObjects
  else if drag.isNew then layoutObjects ++ [newDesk]
  else
    let newDesk2 :=
      match layoutObjects.find? (fun d => d.id = newDesk.id) with
      | some existingDesk =>
        { newDesk with
          rotation := existingDesk.rotation
          width := existingDesk.width
          height := existingDesk.height
          userBlockedSeats := existingDesk.userBlockedSeats }
      | none => newDesk
    layoutObjects.map fun d => if d.id = newDesk2.id then newDesk2 else d

/-! ## Spec-side characterizations and concrete fixtures -/

/-- The half-open rectangle-overlap relation as the spec words it
(collision policy §4.1): strict overlap on both axes. -/
def overlapsHalfOpen (a b : LayoutObject) : Prop :=
  a.x < b.x + b.width ∧ a.x + a.width > b.x ∧
    a.y < b.y + b.height ∧ a.y + a.height > b.y

/-- The occupiable-seat contribution of one desk as the spec words it
(§4.2 edge cases): count of `'1'` if the typeCode contains one, otherwise
count of `'0'`, minus the user-blocked seats. -/
def specSeatContribution (d : LayoutObject) : Int :=
  (if '1' ∈ d.type then (d.type.count '1' : Int) else (d.type.count '0' : Int)) -
    (d.userBlockedSeats.length : Int)

/-- The front-to-back, left-to-right visual precedence of the numbering
rule (§4.1): desks vertically separated by more than half a desk height are
ordered by descending `y`; desks within that tolerance by ascending `x`. -/
def visualPrec (a b : LayoutObject) : Prop :=
  (|a.y - b.y| > DESK_HEIGHT_UNITS / 2 ∧ b.y < a.y) ∨
    (|a.y - b.y| ≤ DESK_HEIGHT_UNITS / 2 ∧ a.x < b.x)

instance (a b : LayoutObject) : Decidable (overlapsHalfOpen a b) := by
  unfold overlapsHalfOpen; infer_instance

instance (a b : LayoutObject) : Decidable (visualPrec a b) := by
  unfold visualPrec; infer_instance

/-- The (id, seat list) writes performed by the application loop, in
iteration order: one entry per non-null seating cell whose position is in
the position map. -/
def writesOf (positionMap : PosMap) (seating : Seating) : List (Nat × List SeatVal) :=
  seating.enum.flatMap fun rp =>
    rp.2.enum.filterMap fun cp =>
      match cp.2 with
      | none => none
      | some deskStudents =>
        match List.lookup (rp.1, cp.1) positionMap with
        | some objectId => some (objectId, deskStudents)
        | none => none

/-- The final `students` list of the desk with id `objId` after the
application loop: the coerced seat list of the (last) cell owning it, or
`[]` when no non-null cell references it. -/
def appliedStudents (positionMap : PosMap) (seating : Seating) (objId : Nat) :
    List (Option Str) :=
  match (writesOf positionMap seating).reverse.find? (fun w => w.1 = objId) with
  | some w => w.2.map coerceSeat
  | none => []

/-- A default-sized desk fixture. -/
def seatDesk (n : Nat) (t : Str) : LayoutObject :=
  { id := n, type := t, x := 0, y := 0, width := DESK_WIDTH_UNITS, height := DESK_HEIGHT_UNITS }

/-- Round-trip counterexample: a single-seat desk and, in the row behind
it, a triple desk sharing the same horizontal center (6). -/
def rtObjects : List LayoutObject :=
  [ { id := 0, type := ['1'], x := 4, y := 0, width := 4, height := 4 },
    { id := 1, type := ['1', '1', '1'], x := 0, y := 10, width := 12, height := 4 } ]

/-- Numbering counterexample: three desks whose pairwise comparisons under
the row-grouping tolerance form a cycle. -/
def cycleObjects : List LayoutObject :=
  [ { id := 0, type := ['1'], x := 0, y := 0, width := 4, height := 4 },
    { id := 1, type := ['1'], x := 1, y := 2, width := 4, height := 4 },
    { id := 2, type := ['1'], x := 2, y := 4, width := 4, height := 4 } ]

/-- The one-desk `"11"` scenario of §8: its desk, position map and the
mocked AI seating `[[["Alice","Bob"]]]`. -/
def scDesk : LayoutObject :=
  { id := 5, type := ['1', '1'], x := 0, y := 0, width := 8, height := 4 }

def scPosMap : PosMap := [((0, 0), 5)]

def scSeating : Seating :=
  [[some [SeatVal.str "Alice".data, SeatVal.str "Bob".data]]]

/-- The invariant maintained by the placement loop of step 3 while it
builds one grid row: `processed` are the desks already placed, `cells` the
row being filled and `pm` the position-map entries of this row.  The
non-`"--"` cells are (as a multiset) the typeCodes of the placed desks, the
map values are their ids in order, every entry's key is in this row with a
distinct in-range column, the cell at an entry's column holds the owning
desk's typeCode, and every filled cell has an entry. -/
instance : IsTotal LayoutObject fun a b => a.y ≤ b.y := ⟨fun a b => le_total a.y b.y⟩

instance : IsTrans LayoutObject fun a b => a.y ≤ b.y := ⟨fun _ _ _ h1 h2 => le_trans h1 h2⟩

instance : IsTotal LayoutObject fun a b => a.x ≤ b.x := ⟨fun a b => le_total a.x b.x⟩

instance : IsTrans LayoutObject fun a b => a.x ≤ b.x := ⟨fun _ _ _ h1 h2 => le_trans h1 h2⟩

structure RowInv (numCols rowIndex : Nat) (processed : List LayoutObject)
    (cells : List Str) (pm : PosMap) : Prop where
  hlen : numCols ≤ cells.length
  hperm : List.Perm (cells.filter fun c => c ≠ dd) (processed.map LayoutObject.type)
  hvals : pm.map Prod.snd = processed.map LayoutObject.id
  hkeys : ∀ e ∈ pm, e.1.1 = rowIndex ∧ e.1.2 < cells.length
  hnodup : (pm.map fun e => e.1.2).Nodup
  hcell : ∀ e ∈ pm, ∃ d ∈ processed, d.id = e.2 ∧ cells.getD e.1.2 dd = d.type
  hfill : ∀ c, c < cells.length → cells.getD c dd ≠ dd → ∃ e ∈ pm, e.1.2 = c

/-! ## String-embedding lemmas -/

theorem jsSplit_ne_nil (sep : Char) (s : Str) : jsSplit sep s ≠ [] := by
  cases s with
  | nil => simp [jsSplit]
  | cons a rest =>
    simp only [jsSplit]
    split
    · simp
    · split <;> simp

theorem jsSplit_no_sep (sep : Char) (s : Str) (h : sep ∉ s) :
    jsSplit sep s = [s] := by
  induction s with
  | nil => rfl
  | cons a rest ih =>
    simp only [List.mem_cons, not_or] at h
    have hna : ¬a = sep := fun hc => h.1 hc.symm
    simp only [jsSplit]
    rw [if_neg hna, ih h.2]

theorem jsSplit_append_cons (sep : Char) (s t : Str) (h : sep ∉ s) :
    jsSplit sep (s ++ sep :: t) = s :: jsSplit sep t := by
  induction s with
  | nil => simp [jsSplit]
  | cons a rest ih =>
    simp only [List.mem_cons, not_or] at h
    have hna : ¬a = sep := fun hc => h.1 hc.symm
    simp only [List.cons_append, List.append_eq, jsSplit]
    rw [if_neg hna, ih h.2]

theorem jsSplit_intercalate (sep : Char) (l : List Str) (hne : l ≠ [])
    (h : ∀ s ∈ l, sep ∉ s) :
    jsSplit sep (List.intercalate [sep] l) = l := by
  induction l with
  | nil => exact absurd rfl hne
  | cons s rest ih =>
    cases rest with
    | nil =>
      simpa [List.intercalate] using jsSplit_no_sep sep s (h s (by simp))
    | cons t ts =>
      have hrest : List.intercalate [sep] (t :: ts) ≠ [] → True := fun _ => trivial
      have : List.intercalate [sep] (s :: t :: ts) =
          s ++ sep :: List.intercalate [sep] (t :: ts) := by
        simp [List.intercalate, List.intersperse]
      rw [this, jsSplit_append_cons sep _ _ (h s (by simp))]
      rw [ih (by simp) (fun x hx => h x (by simp [hx]))]

theorem jsTrim_eq_self (s : Str) (h1 : ∀ c, s.head? = some c → isWs c = false)
    (h2 : ∀ c, s.getLast? = some c → isWs c = false) : jsTrim s = s := by
  unfold jsTrim
  have hd : s.dropWhile isWs = s := by
    cases s with
    | nil => rfl
    | cons a rest => simp [List.dropWhile, h1 a rfl]
  rw [hd]
  have : s.reverse.dropWhile isWs = s.reverse := by
    cases hr : s.reverse with
    | nil => rfl
    | cons a rest =>
      have : s.getLast? = some a := by
        rw [List.getLast?_eq_head?_reverse, hr]; rfl
      simp [List.dropWhile, h2 a this]
  rw [this, List.reverse_reverse]

/-! ## Claims C5 and C10: the AI-client result -/

/-- Claim C5 (code bug evidence): a response whose `error` field is
null/absent but whose `seating` field is not an array does NOT produce a
distinct invalid-format failure — the thrown invalid-format `Error` is
swallowed by the function's own `catch`, so the result carries exactly the
same generic communication-error message as a transport exception. -/
theorem generateSeatingArrangement_invalid_format_eq_comm_error :
    generateSeatingArrangement
        (Except.ok (Json.obj [("seating".data, Json.num 5), ("error".data, Json.null)])) =
      { seating := none, error := some (Json.str commErrorMsg) } ∧
    generateSeatingArrangement
        (Except.ok (Json.obj [("seating".data, Json.num 5), ("error".data, Json.null)])) =
      generateSeatingArrangement (Except.error ()) :=
  ⟨rfl, rfl⟩

/-- Claim C10: `generateSeatingArrangement` is total on every transport
outcome (the model returns a value for every `Except Unit Json`, mirroring
that every exception is caught) and its result is exclusive: either a
non-null `seating` with a null `error`, or a null `seating` with a
non-null `error`. -/
theorem generateSeatingArrangement_exclusive (outcome : Except Unit Json) :
    ((generateSeatingArrangement outcome).seating = none ∧
      ∃ e, (generateSeatingArrangement outcome).error = some e) ∨
    ((generateSeatingArrangement outcome).error = none ∧
      ∃ s, (generateSeatingArrangement outcome).seating = some s) := by
  cases outcome with
  | error e => exact Or.inl ⟨rfl, _, rfl⟩
  | ok parsed =>
    by_cases h1 : (Json.getField parsed "error".data).truthy = true
    · exact Or.inl (by simp [generateSeatingArrangement, if_pos h1])
    · by_cases h2 : (Json.getField parsed "seating".data).truthy = true ∧
        (Json.getField parsed "seating".data).isArr = true
      · have hr : generateSeatingArrangement (Except.ok parsed) =
            { seating := some (Json.getField parsed "seating".data), error := none } := by
          simp only [generateSeatingArrangement]
          rw [if_neg h1, if_neg (not_not_intro h2)]
        rw [hr]
        exact Or.inr ⟨rfl, _, rfl⟩
      · have hr : generateSeatingArrangement (Except.ok parsed) =
            { seating := none, error := some (Json.str commErrorMsg) } := by
          simp only [generateSeatingArrangement]
          rw [if_neg h1, if_pos h2]
        rw [hr]
        exact Or.inl ⟨rfl, _, rfl⟩

/-! ## Claim C9: collision policy of the drop handler -/

theorem checkCollision_eq_true_iff (newDesk : LayoutObject) (l : List LayoutObject) :
    checkCollision newDesk l = true ↔
      ∃ d ∈ l, d.id ≠ newDesk.id ∧ overlapsHalfOpen newDesk d := by
  simp [checkCollision, overlapsHalfOpen, List.any_eq_true, and_assoc]

/-- Claim C9: (a) `checkCollision` holds exactly when some other desk's
rectangle strictly overlaps the candidate on both axes (half-open test);
(b) a drop whose candidate overlaps another desk leaves the desk set
unchanged (and the handler reports nothing — its result is the old state);
(c) rectangles that merely share an edge never count as overlapping. -/
theorem handleDrop_collision_noop :
    (∀ (newDesk : LayoutObject) (l : List LayoutObject),
      checkCollision newDesk l = true ↔
        ∃ d ∈ l, d.id ≠ newDesk.id ∧ overlapsHalfOpen newDesk d) ∧
    (∀ (drag : DragData) (gridX gridY : ℚ) (freshId : Nat) (objs : List LayoutObject),
      (∃ d ∈ objs, d.id ≠ (droppedDesk drag gridX gridY freshId).id ∧
        overlapsHalfOpen (droppedDesk drag gridX gridY freshId) d) →
      handleDrop drag gridX gridY freshId objs = objs) ∧
    (∀ a b : LayoutObject,
      (a.x + a.width = b.x ∨ b.x + b.width = a.x ∨
        a.y + a.height = b.y ∨ b.y + b.height = a.y) →
      ¬overlapsHalfOpen a b) := by
  refine ⟨checkCollision_eq_true_iff, ?_, ?_⟩
  · intro drag gridX gridY freshId objs h
    obtain ⟨d, hd, hne, hov⟩ := h
    unfold handleDrop
    rw [if_pos]
    rw [checkCollision_eq_true_iff]
    exact ⟨d, List.mem_filter.2 ⟨hd, by simpa using hne⟩, hne, hov⟩
  · rintro a b (h | h | h | h) ⟨h1, h2, h3, h4⟩ <;> [skip; skip; skip; skip] <;>
      first
      | exact absurd h2 (by rw [h]; exact lt_irrefl _)
      | exact absurd h1 (by rw [h]; simp)
      | exact absurd h4 (by rw [h]; exact lt_irrefl _)
      | exact absurd h3 (by rw [h]; simp)

/-- Witness for claim C9: a concrete palette drop fully overlapping an
existing desk is a no-op. -/
theorem handleDrop_collision_noop_witness :
    handleDrop ⟨['1', '1'], 8, 4, true, none⟩ 0 0 99
        [⟨1, ['1', '1'], 2, 1, 8, 4, 0, [], []⟩] =
      [⟨1, ['1', '1'], 2, 1, 8, 4, 0, [], []⟩] := by
  apply handleDrop_collision_noop.2.1
  exact of_decide_eq_true (by with_unfolding_all rfl)

/-! ## Claim C7: occupiable-seat count -/

theorem foldl_add_map {α : Type} (f : α → Int) (l : List α) (init : Int) :
    l.foldl (fun acc a => acc + f a) init = init + (l.map f).sum := by
  induction l generalizing init with
  | nil => simp
  | cons a t ih => simp [ih, add_assoc]

theorem availableSeats_eq_sum (objs : List LayoutObject) :
    availableSeats objs =
      (objs.map fun d =>
        if d.type ≠ dd then (potentialSeats d.type : Int) - (d.userBlockedSeats.length : Int)
        else 0).sum := by
  unfold availableSeats
  have hstep : (fun (acc : Int) (d : LayoutObject) =>
      if d.type ≠ dd then acc + ((potentialSeats d.type : Int) - (d.userBlockedSeats.length : Int))
      else acc) =
      fun acc d => acc +
        (if d.type ≠ dd then (potentialSeats d.type : Int) - (d.userBlockedSeats.length : Int)
         else 0) := by
    funext acc d
    split <;> simp
  rw [hstep, foldl_add_map]
  simp

theorem potentialSeats_eq_count (t : Str) :
    potentialSeats t = if '1' ∈ t then t.count '1' else t.count '0' := by
  unfold potentialSeats
  have hany : t.any (fun c => c = '1') = decide ('1' ∈ t) := by
    induction t with
    | nil => simp
    | cons a s ih => simp [List.any_cons, ih, eq_comm]
  have hcount : ∀ ch : Char, t.countP (fun c => c = ch) = t.count ch := by
    intro ch
    simp only [List.count]
    refine List.countP_congr fun c _ => ?_
    cases h : c == ch
    · simp only [beq_eq_false_iff_ne] at h
      simp [h]
    · simp only [beq_iff_eq] at h
      simp [h]
  by_cases h : '1' ∈ t
  · rw [if_pos h, hany, if_pos]
    · exact hcount '1'
    · simpa using h
  · rw [if_neg h, hany, if_neg]
    · exact hcount '0'
    · simpa using h

/-- Claim C7: the seat count used by the availability check of
`handleGenerateClick` is, per desk with a `{0,1}` typeCode, the number of
`'1'` characters if there is at least one `'1'`, otherwise the number of
`'0'` characters, minus the user-blocked seats; in particular `"101"`,
`"00"` and `"11"` each contribute 2 seats when nothing is user-blocked. -/
theorem availableSeats_matches_spec (objs : List LayoutObject)
    (h : ∀ d ∈ objs, ∀ c ∈ d.type, c = '0' ∨ c = '1') :
    availableSeats objs = (objs.map specSeatContribution).sum ∧
    availableSeats [seatDesk 0 ['1', '0', '1']] = 2 ∧
    availableSeats [seatDesk 0 ['0', '0']] = 2 ∧
    availableSeats [seatDesk 0 ['1', '1']] = 2 := by
  refine ⟨?_, by decide, by decide, by decide⟩
  rw [availableSeats_eq_sum]
  apply congrArg List.sum
  apply List.map_congr_left
  intro d hd
  have hne : d.type ≠ dd := by
    intro hdd
    have : '-' ∈ d.type := by rw [hdd]; simp [dd]
    rcases h d hd '-' this with h0 | h0 <;> exact absurd h0 (by decide)
  rw [if_pos hne, potentialSeats_eq_count]
  unfold specSeatContribution
  rw [apply_ite (fun n : Nat => (n : Int))]

/-- Witness for claim C7. -/
theorem availableSeats_matches_spec_witness :
    availableSeats [seatDesk 7 ['1', '0']] =
      ([seatDesk 7 ['1', '0']].map specSeatContribution).sum :=
  (availableSeats_matches_spec [seatDesk 7 ['1', '0']] (by decide)).1

/-! ## Claim C6: local validation of `handleGenerateClick` -/

/-- Claim C6: in `handleGenerateClick` an empty desk layout, an empty
roster (generation mode) and a roster exceeding the available seats each
produce their specific local error — the result is `localError`, i.e. the
function returns before the `aiCall` that models contacting the service;
the concrete §8 scenario (one `"1"` desk, roster of two) aborts with the
insufficient-seats message for 2 students and 1 seat. -/
theorem handleGenerateClick_local_validation :
    (∀ (students : Str) (fa : Option (List LayoutObject)),
      handleGenerateClick [] students fa = .localError emptyLayoutMsg) ∧
    (∀ (objs : List LayoutObject) (students : Str),
      (convertObjectsToLayoutMatrix objs).matrix ≠ [] →
      (convertObjectsToLayoutMatrix objs).layout.length ≠ 0 →
      ((jsSplit '\n' (jsTrim students)).filter fun s => jsTrim s ≠ []) = [] →
      handleGenerateClick objs students none = .localError emptyRosterMsg) ∧
    (∀ (objs : List LayoutObject) (students : Str) (sl : List Str),
      (convertObjectsToLayoutMatrix objs).matrix ≠ [] →
      (convertObjectsToLayoutMatrix objs).layout.length ≠ 0 →
      sl = ((jsSplit '\n' (jsTrim students)).filter fun s => jsTrim s ≠ []) →
      sl ≠ [] →
      (sl.length : Int) > availableSeats objs →
      handleGenerateClick objs students none =
        .localError (insufficientMsg sl.length (availableSeats objs))) ∧
    handleGenerateClick
        [{ id := 0, type := ['1'], x := 0, y := 0, width := 4, height := 4 }]
        "Alice\nBob".data none =
      .localError (insufficientMsg 2 1) := by
  refine ⟨?_, ?_, ?_, ?_⟩
  · intro students fa
    rfl
  · intro objs students h1 h2 h3
    unfold handleGenerateClick
    rw [if_neg (not_or.2 ⟨h1, h2⟩)]
    simp only [h3, List.length_nil]
    rfl
  · intro objs students sl h1 h2 hsl hne hgt
    unfold handleGenerateClick
    rw [if_neg (not_or.2 ⟨h1, h2⟩)]
    simp only [← hsl]
    rw [if_neg (by simpa [List.length_eq_zero] using hne), if_pos hgt]
  · with_unfolding_all rfl

/-- Witness for claim C6: a one-desk layout with an empty roster aborts
with the empty-roster message. -/
theorem handleGenerateClick_local_validation_witness :
    handleGenerateClick
        [{ id := 0, type := ['1'], x := 0, y := 0, width := 4, height := 4 }] [] none =
      .localError emptyRosterMsg :=
  handleGenerateClick_local_validation.2.1 _ []
    (of_decide_eq_true (by with_unfolding_all rfl))
    (of_decide_eq_true (by with_unfolding_all rfl))
    (of_decide_eq_true (by with_unfolding_all rfl))

/-! ## Claim C8: applying an AI seating result -/

theorem foldl_filterMap {α β γ : Type} (h : α → Option β) (f : γ → β → γ)
    (l : List α) (init : γ) :
    (l.filterMap h).foldl f init =
      l.foldl (fun acc x => match h x with | some y => f acc y | none => acc) init := by
  induction l generalizing init with
  | nil => rfl
  | cons a t ih =>
    cases hx : h a <;> simp [List.filterMap_cons, hx, ih]

theorem applySeating_eq_foldl_writes (objs : List LayoutObject) (pm : PosMap)
    (seating : Seating) :
    applySeating objs pm seating =
      (writesOf pm seating).foldl
        (fun acc w => setStudentsFirst w.1 (w.2.map coerceSeat) acc)
        (objs.map fun o => { o with students := ([] : List (Option Str)) }) := by
  unfold applySeating writesOf
  have main : ∀ (rows : List (List (Option (List SeatVal)))) (n : Nat)
      (acc : List LayoutObject),
      (List.enumFrom n rows).foldl
        (fun acc rp =>
          rp.2.enum.foldl
            (fun acc cp =>
              match cp.2 with
              | none => acc
              | some deskStudents =>
                match List.lookup (rp.1, cp.1) pm with
                | none => acc
                | some objectId =>
                  setStudentsFirst objectId (deskStudents.map coerceSeat) acc)
            acc)
        acc =
      ((List.enumFrom n rows).flatMap fun rp =>
        rp.2.enum.filterMap fun cp =>
          match cp.2 with
          | none => none
          | some deskStudents =>
            match List.lookup (rp.1, cp.1) pm with
            | some objectId => some (objectId, deskStudents)
            | none => none).foldl
        (fun acc w => setStudentsFirst w.1 (w.2.map coerceSeat) acc) acc := by
    intro rows
    induction rows with
    | nil => intro n acc; rfl
    | cons row rest ih =>
      intro n acc
      simp only [List.enumFrom_cons, List.foldl_cons, List.flatMap_cons, List.foldl_append]
      rw [ih]
      congr 1
      rw [foldl_filterMap]
      congr 1
      funext b cp
      rcases cp with ⟨ci, cell⟩
      cases cell with
      | none => rfl
      | some ds => cases List.lookup (n, ci) pm <;> rfl
  simpa [List.enum] using main seating 0 (objs.map fun o => { o with students := [] })

theorem setStudentsFirst_map (objs : List LayoutObject)
    (hids : (objs.map LayoutObject.id).Nodup) (g : Nat → List (Option Str))
    (id0 : Nat) (v : List (Option Str)) :
    setStudentsFirst id0 v (objs.map fun o => { o with students := g o.id }) =
      objs.map fun o => { o with students := if o.id = id0 then v else g o.id } := by
  induction objs with
  | nil => rfl
  | cons o rest ih =>
    simp only [List.map_cons, List.map_nil, List.nodup_cons, List.mem_map] at hids ⊢
    simp only [setStudentsFirst]
    by_cases h : o.id = id0
    · rw [if_pos (show ({ o with students := g o.id } : LayoutObject).id = id0 from h),
        if_pos h]
      congr 1
      apply List.map_congr_left
      intro o2 ho2
      have : ¬o2.id = id0 := by
        intro hcon
        exact hids.1 ⟨o2, ho2, hcon.trans h.symm⟩
      rw [if_neg this]
    · rw [if_neg (show ¬({ o with students := g o.id } : LayoutObject).id = id0 from h),
        if_neg h, ih hids.2]

theorem foldl_setStudents (writes : List (Nat × List SeatVal))
    (objs : List LayoutObject) (hids : (objs.map LayoutObject.id).Nodup)
    (g : Nat → List (Option Str)) :
    writes.foldl (fun acc w => setStudentsFirst w.1 (w.2.map coerceSeat) acc)
        (objs.map fun o => { o with students := g o.id }) =
      objs.map fun o =>
        { o with students := (writes.foldl
            (fun cur w => if o.id = w.1 then w.2.map coerceSeat else cur) (g o.id)) } := by
  induction writes generalizing g with
  | nil => rfl
  | cons w ws ih =>
    simp only [List.foldl_cons]
    rw [setStudentsFirst_map objs hids g w.1 (w.2.map coerceSeat)]
    exact ih fun i => if i = w.1 then w.2.map coerceSeat else g i

theorem foldl_override_eq_find (writes : List (Nat × List SeatVal)) (id0 : Nat)
    (init : List (Option Str)) :
    writes.foldl (fun cur w => if id0 = w.1 then w.2.map coerceSeat else cur) init =
      match writes.reverse.find? (fun w => w.1 = id0) with
      | some w => w.2.map coerceSeat
      | none => init := by
  induction writes generalizing init with
  | nil => rfl
  | cons w ws ih =>
    simp only [List.foldl_cons, List.reverse_cons, List.find?_append]
    rw [ih]
    cases hfind : ws.reverse.find? (fun w => w.1 = id0) with
    | some w2 => simp
    | none =>
      by_cases h : id0 = w.1
      · rw [if_pos h]
        subst h
        simp
      · rw [if_neg h]
        have hd : (decide (w.1 = id0)) = false := decide_eq_false fun hcon => h hcon.symm
        simp [List.find?, hd]

/-- Claim C8: the application of an AI seating result is a pure projection:
every desk keeps all its fields except `students`, which becomes the
coerced seat list of the seating cell owning it through the position map
(non-string entries become `null`), and `[]` when no non-null cell
references the desk. -/
theorem applySeating_is_projection (objs : List LayoutObject) (pm : PosMap)
    (seating : Seating) (hids : (objs.map LayoutObject.id).Nodup) :
    applySeating objs pm seating =
      objs.map fun o => { o with students := appliedStudents pm seating o.id } := by
  rw [applySeating_eq_foldl_writes]
  refine (foldl_setStudents (writesOf pm seating) objs hids fun _ => []).trans ?_
  apply List.map_congr_left
  intro o _
  rw [foldl_override_eq_find]
  rfl

/-- Witness for claim C8: the §8 scenario — one `"11"` desk, mock seating
`[[["Alice","Bob"]]]` — ends with `students = ["Alice","Bob"]`. -/
theorem applySeating_is_projection_witness :
    applySeating [scDesk] scPosMap scSeating =
      [{ scDesk with students := [some "Alice".data, some "Bob".data] }] := by
  rw [applySeating_is_projection [scDesk] scPosMap scSeating (by decide)]
  rfl

/-! ## Row partition of the forward conversion -/

theorem groupGo_eq_map (l : List LayoutObject) : ∀ (first : LayoutObject)
    (acc : List LayoutObject),
    groupGo first acc l = (groupGoRaw first acc l).map sortRowX := by
  induction l with
  | nil => intro first acc; rfl
  | cons d rest ih =>
    intro first acc
    simp only [groupGo, groupGoRaw]
    split
    · exact ih first (acc ++ [d])
    · simp [ih d []]

theorem groupGoRaw_flatten (l : List LayoutObject) : ∀ (first : LayoutObject)
    (acc : List LayoutObject),
    (groupGoRaw first acc l).flatten = first :: (acc ++ l) := by
  induction l with
  | nil => intro first acc; simp [groupGoRaw]
  | cons d rest ih =>
    intro first acc
    simp only [groupGoRaw]
    split
    · rw [ih]
      simp
    · simp [ih d []]

theorem groupGoRaw_ne_nil (l : List LayoutObject) : ∀ (f : LayoutObject)
    (a : List LayoutObject), ∀ r ∈ groupGoRaw f a l, r ≠ [] := by
  induction l with
  | nil =>
    intro f a r hr
    simp only [groupGoRaw, List.mem_singleton] at hr
    simp [hr]
  | cons p rest ih =>
    intro f a r hr
    simp only [groupGoRaw] at hr
    split at hr
    · exact ih f (a ++ [p]) r hr
    · rcases List.mem_cons.mp hr with h2 | h2
      · simp [h2]
      · exact ih p [] r h2

theorem rowsOfRaw_flatten (objects : List LayoutObject) :
    (rowsOfRaw objects).flatten = sortedByY objects := by
  unfold rowsOfRaw
  cases h : sortedByY objects with
  | nil => rfl
  | cons d rest => rw [groupGoRaw_flatten]; simp

theorem rowsOf_eq_map (objects : List LayoutObject) :
    rowsOf objects = (rowsOfRaw objects).map sortRowX := by
  unfold rowsOf rowsOfRaw
  cases sortedByY objects with
  | nil => rfl
  | cons d rest => exact groupGo_eq_map rest d []

theorem sortRowX_perm (row : List LayoutObject) : List.Perm (sortRowX row) row :=
  List.perm_insertionSort _ _

theorem rowsOf_flatten_perm (objects : List LayoutObject) :
    List.Perm (rowsOf objects).flatten objects := by
  rw [rowsOf_eq_map]
  have h1 : List.Perm ((rowsOfRaw objects).map sortRowX).flatten
      (rowsOfRaw objects).flatten := by
    induction rowsOfRaw objects with
    | nil => rfl
    | cons r rs ih => simpa using List.Perm.append (sortRowX_perm r) ih
  refine h1.trans ?_
  rw [rowsOfRaw_flatten]
  exact List.perm_insertionSort _ _

theorem sortedByY_sorted (objects : List LayoutObject) :
    (sortedByY objects).Pairwise fun a b => a.y ≤ b.y :=
  List.sorted_insertionSort _ _

theorem rowsOfRaw_pairwise (objects : List LayoutObject) :
    (rowsOfRaw objects).Pairwise fun r1 r2 => ∀ d ∈ r1, ∀ e ∈ r2, d.y ≤ e.y := by
  have h := sortedByY_sorted objects
  rw [← rowsOfRaw_flatten] at h
  exact (List.pairwise_flatten.mp h).2

theorem rowsOf_pairwise (objects : List LayoutObject) :
    (rowsOf objects).Pairwise fun r1 r2 => ∀ d ∈ r1, ∀ e ∈ r2, d.y ≤ e.y := by
  rw [rowsOf_eq_map]
  refine List.Pairwise.map _ ?_ (rowsOfRaw_pairwise objects)
  intro r1 r2 h d hd e he
  exact h d ((sortRowX_perm r1).subset hd) e ((sortRowX_perm r2).subset he)

theorem rowsOf_ne_nil (objects : List LayoutObject) (h : objects ≠ []) :
    rowsOf objects ≠ [] := by
  intro hcon
  have h1 := rowsOf_flatten_perm objects
  rw [hcon] at h1
  simp only [List.flatten_nil] at h1
  exact h (h1.symm.eq_nil)

theorem rowsOf_rows_ne_nil (objects : List LayoutObject) :
    ∀ r ∈ rowsOf objects, r ≠ [] := by
  rw [rowsOf_eq_map]
  intro r hr
  obtain ⟨raw, hraw, rfl⟩ := List.mem_map.mp hr
  have hne : raw ≠ [] := by
    revert hraw
    unfold rowsOfRaw
    cases sortedByY objects with
    | nil => intro h; exact absurd h (List.not_mem_nil raw)
    | cons d rest => exact groupGoRaw_ne_nil rest d [] raw
  intro hcon
  apply hne
  have hp := sortRowX_perm raw
  rw [hcon] at hp
  exact hp.symm.eq_nil

/-! ## Column centers and best-column selection -/

theorem foldl_setDedup_ne_nil {α : Type} [DecidableEq α] (l : List α) :
    ∀ acc : List α, acc ≠ [] ∨ l ≠ [] →
    l.foldl (fun acc c => if c ∈ acc then acc else acc ++ [c]) acc ≠ [] := by
  induction l with
  | nil =>
    intro acc h
    simpa using h.resolve_right (by simp)
  | cons c rest ih =>
    intro acc _
    simp only [List.foldl_cons]
    apply ih
    left
    split
    · exact List.ne_nil_of_mem (by assumption)
    · simp

theorem sortedUniqueCenters_ne_nil (objects : List LayoutObject) (h : objects ≠ []) :
    sortedUniqueCenters objects ≠ [] := by
  unfold sortedUniqueCenters
  intro hcon
  have h1 := List.perm_insertionSort (fun a b : ℚ => a ≤ b)
    ((objects.map fun d => d.x + d.width / 2).foldl
      (fun acc c => if c ∈ acc then acc else acc ++ [c]) [])
  rw [hcon] at h1
  refine foldl_setDedup_ne_nil _ [] (Or.inr ?_) h1.symm.eq_nil
  simpa using h

theorem clusterGo_ne_nil (l : List ℚ) : ∀ (cur : List ℚ) (lastC : ℚ),
    clusterGo cur lastC l ≠ [] := by
  induction l with
  | nil => intro cur lastC; simp [clusterGo]
  | cons c rest ih =>
    intro cur lastC
    simp only [clusterGo]
    split
    · exact ih (cur ++ [c]) c
    · simp

theorem columnCenters_ne_nil (objects : List LayoutObject) (h : objects ≠ []) :
    columnCenters objects ≠ [] := by
  unfold columnCenters
  cases hs : sortedUniqueCenters objects with
  | nil => exact absurd hs (sortedUniqueCenters_ne_nil objects h)
  | cons c rest => simpa using clusterGo_ne_nil rest [c] c

theorem numColsOf_eq (objects : List LayoutObject) (h : objects ≠ []) :
    numColsOf objects = (columnCenters objects).length := by
  unfold numColsOf
  rw [if_pos (List.length_pos.mpr (columnCenters_ne_nil objects h))]

theorem bestCol_some (x : ℚ) (centers : List ℚ) (h : centers ≠ []) :
    ∃ b, bestCol x centers = some b ∧ b < centers.length := by
  have aux : ∀ (l : List (Nat × ℚ)) (st : Option (Nat × ℚ)),
      (∀ p, st = some p → p.1 < centers.length) → (∀ q ∈ l, q.1 < centers.length) →
      (st ≠ none ∨ l ≠ []) →
      ∃ r, l.foldl
        (fun acc p =>
          match acc with
          | none => some (p.1, |x - p.2|)
          | some (bi, bd) =>
            if |x - p.2| < bd then some (p.1, |x - p.2|) else some (bi, bd))
        st = some r ∧ r.1 < centers.length := by
    intro l
    induction l with
    | nil =>
      intro st hst _ hne
      rcases hne with hne | hne
      · cases hs : st with
        | none => exact absurd hs hne
        | some p => exact ⟨p, by simp [hs], hst p hs⟩
      · exact absurd rfl hne
    | cons q rest ih =>
      intro st hst hl _
      simp only [List.foldl_cons]
      cases st with
      | none =>
        dsimp only
        refine ih (some (q.1, |x - q.2|)) ?_ (fun p hp => hl p (by simp [hp])) (Or.inl (by simp))
        intro p hp
        rw [Option.some_inj] at hp
        rw [← hp]
        exact hl q (by simp)
      | some b =>
        rcases b with ⟨bi, bd⟩
        dsimp only
        split
        · refine ih _ ?_ (fun p hp => hl p (by simp [hp])) (Or.inl (by simp))
          intro p hp
          rw [Option.some_inj] at hp
          rw [← hp]
          exact hl q (by simp)
        · refine ih _ ?_ (fun p hp => hl p (by simp [hp])) (Or.inl (by simp))
          intro p hp
          rw [Option.some_inj] at hp
          rw [← hp]
          exact hst (bi, bd) rfl
  have henum : ∀ q ∈ centers.enum, q.1 < centers.length := by
    intro q hq
    have := List.mem_enum_iff_getElem?.mp hq
    exact (List.getElem?_eq_some.mp this).1
  have henum_ne : centers.enum ≠ [] := by
    intro hcon
    apply h
    have := List.enum_length (l := centers)
    rw [hcon] at this
    exact List.length_eq_zero.mp this.symm
  obtain ⟨r, hr, hlt⟩ := aux centers.enum none (by simp) henum (Or.inr henum_ne)
  exact ⟨r.1, by unfold bestCol; rw [hr]; rfl, hlt⟩

/-! ## Placement invariant -/

theorem getD_set_self (l : List Str) (c : Nat) (t : Str) (h : c < l.length) :
    (l.set c t).getD c dd = t := by
  rw [List.getD_eq_getElem?_getD, List.getElem?_set_self h]
  rfl

theorem getD_set_ne (l : List Str) (c c' : Nat) (t : Str) (h : c ≠ c') :
    (l.set c t).getD c' dd = l.getD c' dd := by
  rw [List.getD_eq_getElem?_getD, List.getElem?_set_ne h, ← List.getD_eq_getElem?_getD]

theorem filter_set_perm (l : List Str) : ∀ (c : Nat) (t : Str), c < l.length →
    l.getD c dd = dd → t ≠ dd →
    List.Perm ((l.set c t).filter fun s => s ≠ dd) (t :: l.filter fun s => s ≠ dd) := by
  induction l with
  | nil => intro c t hc _ _; simp at hc
  | cons a rest ih =>
    intro c t hc hdd ht
    cases c with
    | zero =>
      have ha : a = dd := by simpa [List.getD] using hdd
      subst ha
      simp only [List.set, List.filter_cons]
      rw [if_pos (by simpa using ht), if_neg (by simp)]
    | succ c' =>
      have hc' : c' < rest.length := by simpa using hc
      have hdd' : rest.getD c' dd = dd := by simpa [List.getD] using hdd
      simp only [List.set]
      by_cases ha : a = dd
      · subst ha
        simp only [List.filter_cons]
        rw [if_neg (by simp), if_neg (by simp)]
        exact ih c' t hc' hdd' ht
      · simp only [List.filter_cons]
        rw [if_pos (by simpa using ha), if_pos (by simpa using ha)]
        exact ((ih c' t hc' hdd' ht).cons a).trans (List.Perm.swap t a _)

theorem pmInsert_of_fresh (pm : PosMap) (k : Nat × Nat) (v : Nat)
    (h : ∀ e ∈ pm, e.1 ≠ k) : pmInsert pm k v = pm ++ [(k, v)] := by
  unfold pmInsert
  rw [if_neg]
  intro hcon
  rw [List.any_eq_true] at hcon
  obtain ⟨e, he, hek⟩ := hcon
  exact h e he (of_decide_eq_true hek)

theorem findFreeSlot_spec (cells : List Str) (numCols i : Nat)
    (h : findFreeSlot cells numCols = some i) : i < numCols ∧ cellFree cells i = true :=
  ⟨List.mem_range.mp (List.mem_of_find?_eq_some h), List.find?_some h⟩

theorem cellFree_getD (cells : List Str) (i : Nat) (hi : i < cells.length)
    (h : cellFree cells i = true) : cells.getD i dd = dd := by
  unfold cellFree at h
  rw [List.getElem?_eq_getElem hi] at h
  rw [List.getD_eq_getElem?_getD, List.getElem?_eq_getElem hi]
  simpa using h

theorem cellFree_false (cells : List Str) (i : Nat) (h : cellFree cells i = false) :
    i < cells.length ∧ cells.getD i dd ≠ dd := by
  unfold cellFree at h
  cases hx : cells[i]? with
  | none => rw [hx] at h; simp at h
  | some c =>
    rw [hx] at h
    have hi : i < cells.length := (List.getElem?_eq_some.mp hx).1
    refine ⟨hi, ?_⟩
    rw [List.getD_eq_getElem?_getD, hx]
    simpa using h

theorem RowInv.write_set {numCols rowIndex : Nat} {processed : List LayoutObject}
    {cells : List Str} {pm : PosMap}
    (inv : RowInv numCols rowIndex processed cells pm)
    (d : LayoutObject) (hd : d.type ≠ dd) (hproc : ∀ p ∈ processed, p.type ≠ dd)
    (c : Nat) (hc : c < cells.length) (hfree : cells.getD c dd = dd) :
    RowInv numCols rowIndex (processed ++ [d]) (cells.set c d.type)
      (pm ++ [((rowIndex, c), d.id)]) := by
  have hentry_ne : ∀ e ∈ pm, e.1.2 ≠ c := by
    intro e he hcon
    obtain ⟨p, hp, _, hcell⟩ := inv.hcell e he
    rw [hcon] at hcell
    exact hproc p hp (hcell.symm.trans hfree)
  refine ⟨?_, ?_, ?_, ?_, ?_, ?_, ?_⟩
  · rw [List.length_set]; exact inv.hlen
  · refine (filter_set_perm cells c d.type hc hfree hd).trans ?_
    refine ((inv.hperm).cons d.type).trans ?_
    simpa using (List.perm_append_singleton d.type (processed.map LayoutObject.type)).symm
  · simp [inv.hvals]
  · intro e he
    rcases List.mem_append.mp he with he | he
    · obtain ⟨h1, h2⟩ := inv.hkeys e he
      exact ⟨h1, by rw [List.length_set]; exact h2⟩
    · simp only [List.mem_singleton] at he
      subst he
      exact ⟨rfl, by rw [List.length_set]; exact hc⟩
  · simp only [List.map_append, List.map_cons, List.map_nil]
    rw [List.nodup_append]
    refine ⟨inv.hnodup, List.nodup_singleton c, ?_⟩
    intro a ha hb
    simp only [List.mem_singleton] at hb
    subst hb
    obtain ⟨e, he, hec⟩ := List.mem_map.mp ha
    exact hentry_ne e he hec
  · intro e he
    rcases List.mem_append.mp he with he | he
    · obtain ⟨p, hp, hid, hcell⟩ := inv.hcell e he
      exact ⟨p, List.mem_append_left _ hp, hid,
        by rw [getD_set_ne cells c e.1.2 d.type (fun hcon => hentry_ne e he hcon.symm)]
           exact hcell⟩
    · simp only [List.mem_singleton] at he
      subst he
      exact ⟨d, List.mem_append_right _ (List.mem_singleton.mpr rfl), rfl,
        getD_set_self cells c d.type hc⟩
  · intro c2 hc2 hne
    rw [List.length_set] at hc2
    by_cases heq : c2 = c
    · subst heq
      exact ⟨((rowIndex, c2), d.id), List.mem_append_right _ (by simp), rfl⟩
    · rw [getD_set_ne cells c c2 d.type (fun hcon => heq hcon.symm)] at hne
      obtain ⟨e, he, hec⟩ := inv.hfill c2 hc2 hne
      exact ⟨e, List.mem_append_left _ he, hec⟩

theorem RowInv.write_append {numCols rowIndex : Nat} {processed : List LayoutObject}
    {cells : List Str} {pm : PosMap}
    (inv : RowInv numCols rowIndex processed cells pm)
    (d : LayoutObject) (hd : d.type ≠ dd) :
    RowInv numCols rowIndex (processed ++ [d]) (cells ++ [d.type])
      (pm ++ [((rowIndex, cells.length), d.id)]) := by
  refine ⟨?_, ?_, ?_, ?_, ?_, ?_, ?_⟩
  · rw [List.length_append]
    exact le_trans inv.hlen (Nat.le_add_right _ _)
  · rw [List.filter_append]
    simp only [List.filter_cons, List.filter_nil, List.map_append, List.map_cons,
      List.map_nil]
    rw [if_pos (by simpa using hd)]
    exact List.Perm.append inv.hperm (List.Perm.refl _)
  · simp [inv.hvals]
  · intro e he
    rcases List.mem_append.mp he with he | he
    · obtain ⟨h1, h2⟩ := inv.hkeys e he
      exact ⟨h1, by rw [List.length_append]; exact lt_of_lt_of_le h2 (Nat.le_add_right _ _)⟩
    · simp only [List.mem_singleton] at he
      subst he
      exact ⟨rfl, by simp⟩
  · simp only [List.map_append, List.map_cons, List.map_nil]
    rw [List.nodup_append]
    refine ⟨inv.hnodup, List.nodup_singleton _, ?_⟩
    intro a ha hb
    simp only [List.mem_singleton] at hb
    subst hb
    obtain ⟨e, he, hec⟩ := List.mem_map.mp ha
    exact absurd (hec ▸ (inv.hkeys e he).2) (lt_irrefl _)
  · intro e he
    rcases List.mem_append.mp he with he | he
    · obtain ⟨p, hp, hid, hcell⟩ := inv.hcell e he
      exact ⟨p, List.mem_append_left _ hp, hid,
        by rw [List.getD_append _ _ _ _ (inv.hkeys e he).2]; exact hcell⟩
    · simp only [List.mem_singleton] at he
      subst he
      refine ⟨d, List.mem_append_right _ (by simp), rfl, ?_⟩
      rw [List.getD_append_right _ _ _ _ (le_refl _)]
      simp
  · intro c2 hc2 hne
    rw [List.length_append, List.length_singleton] at hc2
    by_cases hlt : c2 < cells.length
    · rw [List.getD_append _ _ _ _ hlt] at hne
      obtain ⟨e, he, hec⟩ := inv.hfill c2 hlt hne
      exact ⟨e, List.mem_append_left _ he, hec⟩
    · have heq : c2 = cells.length := by omega
      exact ⟨((rowIndex, cells.length), d.id), List.mem_append_right _ (by simp), heq.symm⟩

theorem filter_replicate_dd (n : Nat) :
    (List.replicate n dd).filter (fun s => s ≠ dd) = [] := by
  induction n with
  | zero => rfl
  | succ m ih => simp [List.replicate_succ, List.filter_cons, ih]

theorem RowInv.place {numCols rowIndex : Nat} {processed : List LayoutObject}
    {cells : List Str} {pm : PosMap}
    (inv : RowInv numCols rowIndex processed cells pm)
    (d : LayoutObject) (hd : d.type ≠ dd) (hproc : ∀ p ∈ processed, p.type ≠ dd)
    {centers : List ℚ} (hc : centers ≠ []) (hnc : numCols = centers.length) :
    RowInv numCols rowIndex (processed ++ [d])
      (placeDesk centers numCols rowIndex (cells, pm) d).1
      (placeDesk centers numCols rowIndex (cells, pm) d).2 := by
  obtain ⟨b, hb, hblt⟩ := bestCol_some (d.x + d.width / 2) centers hc
  have hbnum : b < numCols := hnc ▸ hblt
  have hblen : b < cells.length := lt_of_lt_of_le hbnum inv.hlen
  unfold placeDesk
  rw [hb]
  dsimp only
  cases hfree : cellFree cells b with
  | true =>
    rw [if_pos rfl]
    have hfreecell := cellFree_getD cells b hblen hfree
    have hfreshpm : ∀ e ∈ pm, e.1 ≠ (rowIndex, b) := by
      intro e he hcon
      obtain ⟨p, hp, _, hcell⟩ := inv.hcell e he
      rw [congrArg Prod.snd hcon] at hcell
      exact hproc p hp (hcell.symm.trans hfreecell)
    rw [pmInsert_of_fresh pm _ d.id hfreshpm]
    exact inv.write_set d hd hproc b hblen hfreecell
  | false =>
    rw [if_neg (by simp)]
    cases hslot : findFreeSlot cells numCols with
    | some i =>
      obtain ⟨hin, hif⟩ := findFreeSlot_spec cells numCols i hslot
      have hilen : i < cells.length := lt_of_lt_of_le hin inv.hlen
      have hicell := cellFree_getD cells i hilen hif
      dsimp only
      have hfreshpm : ∀ e ∈ pm, e.1 ≠ (rowIndex, i) := by
        intro e he hcon
        obtain ⟨p, hp, _, hcell⟩ := inv.hcell e he
        rw [congrArg Prod.snd hcon] at hcell
        exact hproc p hp (hcell.symm.trans hicell)
      rw [pmInsert_of_fresh pm _ d.id hfreshpm]
      exact inv.write_set d hd hproc i hilen hicell
    | none =>
      dsimp only
      have hfreshpm : ∀ e ∈ pm, e.1 ≠ (rowIndex, cells.length) := by
        intro e he hcon
        have h2 := (inv.hkeys e he).2
        rw [congrArg Prod.snd hcon] at h2
        exact lt_irrefl _ h2
      rw [pmInsert_of_fresh pm _ d.id hfreshpm]
      exact inv.write_append d hd

theorem rowInv_start (numCols rowIndex : Nat) :
    RowInv numCols rowIndex [] (List.replicate numCols dd) [] := by
  refine ⟨le_of_eq (List.length_replicate _ _).symm, ?_, rfl, by simp, by simp, by simp, ?_⟩
  · rw [filter_replicate_dd]
    rfl
  · intro c hcl hne
    rw [List.length_replicate] at hcl
    rw [List.getD_eq_getElem?_getD, List.getElem?_replicate, if_pos hcl] at hne
    simp at hne

theorem rowInv_foldl {centers : List ℚ} (hc : centers ≠ []) (numCols rowIndex : Nat)
    (hnc : numCols = centers.length) (row : List LayoutObject) :
    ∀ (processed : List LayoutObject) (cells : List Str) (pm : PosMap),
    RowInv numCols rowIndex processed cells pm →
    (∀ p ∈ processed, p.type ≠ dd) → (∀ p ∈ row, p.type ≠ dd) →
    RowInv numCols rowIndex (processed ++ row)
      (row.foldl (placeDesk centers numCols rowIndex) (cells, pm)).1
      (row.foldl (placeDesk centers numCols rowIndex) (cells, pm)).2 := by
  induction row with
  | nil => intro processed cells pm inv hproc _; simpa using inv
  | cons d rest ih =>
    intro processed cells pm inv hproc hrow
    simp only [List.foldl_cons]
    have hstep := inv.place d (hrow d (by simp)) hproc hc hnc
    have hproc2 : ∀ p ∈ processed ++ [d], p.type ≠ dd := by
      intro p hp
      rcases List.mem_append.mp hp with hp | hp
      · exact hproc p hp
      · simp only [List.mem_singleton] at hp
        subst hp
        exact hrow p (by simp)
    have hrest : ∀ p ∈ rest, p.type ≠ dd := fun p hp => hrow p (by simp [hp])
    have hresult := ih (processed ++ [d])
      (placeDesk centers numCols rowIndex (cells, pm) d).1
      (placeDesk centers numCols rowIndex (cells, pm) d).2
      hstep hproc2 hrest
    have hplist : processed ++ d :: rest = (processed ++ [d]) ++ rest := by simp
    rw [hplist]
    exact hresult

theorem rowResult_inv (objects : List LayoutObject) (hobj : objects ≠ [])
    (rowIndex : Nat) (row : List LayoutObject) (hrow : ∀ p ∈ row, p.type ≠ dd) :
    RowInv (numColsOf objects) rowIndex row
      (rowResult objects rowIndex row).1 (rowResult objects rowIndex row).2 := by
  unfold rowResult
  have h := rowInv_foldl (columnCenters_ne_nil objects hobj) (numColsOf objects) rowIndex
    (numColsOf_eq objects hobj) row [] (List.replicate (numColsOf objects) dd) []
    (rowInv_start _ _) (by simp) hrow
  simpa using h

/-! ## Global grid and position-map facts -/

theorem mem_rowsOf_subset (objects : List LayoutObject) {row : List LayoutObject}
    (hrow : row ∈ rowsOf objects) {d : LayoutObject} (hd : d ∈ row) : d ∈ objects :=
  (rowsOf_flatten_perm objects).subset (List.mem_flatten.mpr ⟨row, hrow, hd⟩)

theorem rowsOf_getD_mem (objects : List LayoutObject) (r : Nat)
    (hr : r < (rowsOf objects).length) :
    (rowsOf objects).getD r [] ∈ rowsOf objects := by
  rw [List.getD_eq_getElem _ _ hr]
  exact List.getElem_mem hr

theorem grid_row_eq (objects : List LayoutObject) (r : Nat)
    (hr : r < (rowsOf objects).length) :
    (layoutGridOf objects).getD r [] =
      (rowResult objects r ((rowsOf objects).getD r [])).1 := by
  unfold layoutGridOf
  have hre : r < (((rowsOf objects).enum.map fun p => (rowResult objects p.1 p.2).1)).length := by
    simpa [List.enum_length] using hr
  rw [List.getD_eq_getElem _ _ hre, List.getElem_map, List.getElem_enum,
    List.getD_eq_getElem _ _ hr]

theorem layoutGrid_length (objects : List LayoutObject) :
    (layoutGridOf objects).length = (rowsOf objects).length := by
  unfold layoutGridOf
  simp [List.enum_length]

theorem finalGrid_length (objects : List LayoutObject) :
    (finalGridOf objects).length = (rowsOf objects).length := by
  unfold finalGridOf
  simp [layoutGrid_length]

theorem finalGrid_row_eq (objects : List LayoutObject) (r : Nat)
    (hr : r < (rowsOf objects).length) :
    (finalGridOf objects).getD r [] =
      (rowResult objects r ((rowsOf objects).getD r [])).1 ++
        List.replicate
          (maxRowLength objects - (rowResult objects r ((rowsOf objects).getD r [])).1.length)
          dd := by
  unfold finalGridOf
  have hrl : r < (layoutGridOf objects).length := by rw [layoutGrid_length]; exact hr
  have hre : r < ((layoutGridOf objects).map fun row =>
      row ++ List.replicate (maxRowLength objects - row.length) dd).length := by
    simpa using hrl
  rw [List.getD_eq_getElem _ _ hre, List.getElem_map, ← List.getD_eq_getElem _ _ hrl,
    grid_row_eq objects r hr]

theorem mem_positionMap_iff (objects : List LayoutObject) (e : (Nat × Nat) × Nat) :
    e ∈ positionMapOf objects ↔
      ∃ r, ∃ _ : r < (rowsOf objects).length,
        e ∈ (rowResult objects r ((rowsOf objects).getD r [])).2 := by
  unfold positionMapOf
  rw [List.mem_flatten]
  constructor
  · rintro ⟨l, hl, hel⟩
    obtain ⟨p, hp, rfl⟩ := List.mem_map.mp hl
    obtain ⟨h1, h2⟩ := List.getElem?_eq_some.mp (List.mem_enum_iff_getElem?.mp hp)
    refine ⟨p.1, h1, ?_⟩
    rw [List.getD_eq_getElem _ _ h1, h2]
    exact hel
  · rintro ⟨r, hr, hel⟩
    refine ⟨(rowResult objects r ((rowsOf objects).getD r [])).2, ?_, hel⟩
    refine List.mem_map.mpr ⟨(r, (rowsOf objects).getD r []), ?_, rfl⟩
    rw [List.mem_enum_iff_getElem?]
    rw [List.getD_eq_getElem _ _ hr]
    exact List.getElem?_eq_some.mpr ⟨hr, rfl⟩

theorem positionMap_vals_perm (objects : List LayoutObject) (hobj : objects ≠ [])
    (htype : ∀ d ∈ objects, d.type ≠ dd) :
    List.Perm ((positionMapOf objects).map Prod.snd) (objects.map LayoutObject.id) := by
  unfold positionMapOf
  rw [List.map_flatten, List.map_map]
  have hcongr : (List.map (List.map Prod.snd ∘ fun p => (rowResult objects p.1 p.2).2)
      (rowsOf objects).enum) =
      (rowsOf objects).enum.map fun p => p.2.map LayoutObject.id := by
    apply List.map_congr_left
    intro p hp
    have hge := List.getElem?_eq_some.mp (List.mem_enum_iff_getElem?.mp hp)
    have hrowmem : p.2 ∈ rowsOf objects := by
      obtain ⟨h1, h2⟩ := hge
      rw [← h2]
      exact List.getElem_mem h1
    exact (rowResult_inv objects hobj p.1 p.2
      fun q hq => htype q (mem_rowsOf_subset objects hrowmem hq)).hvals
  rw [hcongr]
  rw [show ((rowsOf objects).enum.map fun p => p.2.map LayoutObject.id) =
      ((rowsOf objects).enum.map Prod.snd).map (fun row => row.map LayoutObject.id) from by
    rw [List.map_map]; rfl]
  rw [List.enum_map_snd, ← List.map_flatten]
  exact (rowsOf_flatten_perm objects).map _

theorem foldl_max_le_init (L : List (List Str)) : ∀ init : Nat,
    init ≤ L.foldl (fun m row => max m row.length) init := by
  induction L with
  | nil => intro init; exact le_refl _
  | cons r rest ih =>
    intro init
    exact le_trans (le_max_left init r.length) (ih (max init r.length))

theorem mem_le_foldl_max (L : List (List Str)) : ∀ (init : Nat) (row : List Str),
    row ∈ L → row.length ≤ L.foldl (fun m row => max m row.length) init := by
  induction L with
  | nil => intro init row h; exact absurd h (List.not_mem_nil row)
  | cons r rest ih =>
    intro init row h
    rcases List.mem_cons.mp h with h | h
    · subst h
      exact le_trans (le_max_right init row.length) (foldl_max_le_init rest _)
    · exact ih _ row h

theorem finalGrid_rect (objects : List LayoutObject) :
    ∀ row ∈ finalGridOf objects, row.length = maxRowLength objects := by
  intro row hrow
  unfold finalGridOf at hrow
  obtain ⟨base, hbase, rfl⟩ := List.mem_map.mp hrow
  have hle : base.length ≤ maxRowLength objects := mem_le_foldl_max _ 0 base hbase
  simp only [List.length_append, List.length_replicate]
  omega

theorem convert_eq (objects : List LayoutObject) (hobj : objects ≠ []) :
    convertObjectsToLayoutMatrix objects =
      ⟨matrixOf objects, finalGridOf objects, positionMapOf objects,
        numberedMatrixOf objects⟩ := by
  unfold convertObjectsToLayoutMatrix
  rw [if_neg (by simpa using hobj),
    if_neg (by simpa [List.length_eq_zero] using rowsOf_ne_nil objects hobj)]

theorem decide_eq_beq {α : Type} [DecidableEq α] [BEq α] [LawfulBEq α] (a b : α) :
    (decide (a = b)) = (a == b) := by
  cases h : a == b
  · simp only [beq_eq_false_iff_ne] at h
    simp [h]
  · simp only [beq_iff_eq] at h
    simp [h]

/-- Claim C3: the layout grid is rectangular, every desk id is the value of
exactly one position-map key, and the cell at that key holds the desk's
typeCode (for valid desk sets: pairwise-distinct ids, no `"--"` typeCode). -/
theorem convert_grid_positionMap_exact (objects : List LayoutObject)
    (hids : (objects.map LayoutObject.id).Nodup)
    (htype : ∀ d ∈ objects, d.type ≠ dd) :
    (∀ r1 ∈ (convertObjectsToLayoutMatrix objects).layout,
      ∀ r2 ∈ (convertObjectsToLayoutMatrix objects).layout, r1.length = r2.length) ∧
    (∀ d ∈ objects,
      ((convertObjectsToLayoutMatrix objects).positionMap.filter
        fun e => e.2 = d.id).length = 1) ∧
    (∀ d ∈ objects, ∀ r c,
      ((r, c), d.id) ∈ (convertObjectsToLayoutMatrix objects).positionMap →
      ((convertObjectsToLayoutMatrix objects).layout.getD r []).getD c dd = d.type) := by
  by_cases hobj : objects = []
  · subst hobj
    refine ⟨?_, by simp, by simp⟩
    intro r1 hr1 r2 hr2
    simp [convertObjectsToLayoutMatrix] at hr1
  rw [convert_eq objects hobj]
  refine ⟨?_, ?_, ?_⟩
  · intro r1 hr1 r2 hr2
    rw [finalGrid_rect objects r1 hr1, finalGrid_rect objects r2 hr2]
  · intro d hd
    rw [← List.countP_eq_length_filter]
    have h1 : ((positionMapOf objects).countP fun e => e.2 = d.id) =
        List.count d.id ((positionMapOf objects).map Prod.snd) := by
      rw [List.count, List.countP_map]
      refine List.countP_congr fun e _ => ?_
      simp only [Function.comp_apply]
      rw [← decide_eq_beq e.2 d.id]
    rw [h1, (positionMap_vals_perm objects hobj htype).count_eq d.id,
      List.count_eq_one_of_mem hids (List.mem_map.mpr ⟨d, hd, rfl⟩)]
  · intro d hd r c hmem
    obtain ⟨r2, hr2, he⟩ := (mem_positionMap_iff objects _).mp hmem
    have hrowtypes : ∀ q ∈ (rowsOf objects).getD r2 [], q.type ≠ dd :=
      fun q hq => htype q (mem_rowsOf_subset objects (rowsOf_getD_mem objects r2 hr2) hq)
    have inv := rowResult_inv objects hobj r2 ((rowsOf objects).getD r2 []) hrowtypes
    have hkey := inv.hkeys _ he
    have hr2r : r2 = r := hkey.1.symm
    subst hr2r
    obtain ⟨p, hp, hpid, hcell⟩ := inv.hcell _ he
    have hpd : p = d :=
      List.inj_on_of_nodup_map hids
        (mem_rowsOf_subset objects (rowsOf_getD_mem objects r2 hr2) hp) hd hpid
    subst hpd
    rw [finalGrid_row_eq objects r2 hr2,
      List.getD_append _ _ _ _ (by exact hkey.2)]
    exact hcell

/-- Witness for claim C3, at a concrete two-desk layout. -/
theorem convert_grid_positionMap_exact_witness :
    ((convertObjectsToLayoutMatrix rtObjects).positionMap.filter
      fun e => e.2 = 0).length = 1 :=
  (convert_grid_positionMap_exact rtObjects (by decide) (by decide)).2.1
    { id := 0, type := ['1'], x := 4, y := 0, width := 4, height := 4 }
    (List.mem_cons_self _ _)

/-! ## Claim C1: back-to-front row order of the matrix -/

theorem finalGrid_row_filter (objects : List LayoutObject) (hobj : objects ≠ [])
    (htype : ∀ d ∈ objects, d.type ≠ dd) (r : Nat) (hr : r < (rowsOf objects).length) :
    List.Perm (((finalGridOf objects).getD r []).filter fun s => s ≠ dd)
      (((rowsOf objects).getD r []).map LayoutObject.type) := by
  have hrowtypes : ∀ q ∈ (rowsOf objects).getD r [], q.type ≠ dd :=
    fun q hq => htype q (mem_rowsOf_subset objects (rowsOf_getD_mem objects r hr) hq)
  have inv := rowResult_inv objects hobj r ((rowsOf objects).getD r []) hrowtypes
  rw [finalGrid_row_eq objects r hr, List.filter_append, filter_replicate_dd,
    List.append_nil]
  exact inv.hperm

/-- Claim C1: the serialized matrix is the newline-join of the grid rows in
order, the grid rows are exactly the y-grouping rows, those rows are
ordered back-to-front (every desk of an earlier text line has `y` at most
that of every desk of a later line, so the back row — smallest `y` — forms
the first line and the front-most row — largest `y` — the last line), and
each text line carries precisely the typeCodes of its row's desks. -/
theorem matrix_rows_back_to_front (objects : List LayoutObject)
    (htype : ∀ d ∈ objects, d.type ≠ dd)
    (hrows : 2 ≤ (convertObjectsToLayoutMatrix objects).layout.length) :
    (convertObjectsToLayoutMatrix objects).matrix =
      jsJoin ['\n'] ((convertObjectsToLayoutMatrix objects).layout.map (jsJoin [','])) ∧
    (convertObjectsToLayoutMatrix objects).layout.length = (rowsOf objects).length ∧
    (rowsOf objects).Pairwise (fun r1 r2 => ∀ d ∈ r1, ∀ e ∈ r2, d.y ≤ e.y) ∧
    (∀ r, r < (rowsOf objects).length →
      List.Perm (((convertObjectsToLayoutMatrix objects).layout.getD r []).filter
        fun s => s ≠ dd)
        (((rowsOf objects).getD r []).map LayoutObject.type)) := by
  have hobj : objects ≠ [] := by
    intro hcon
    subst hcon
    simp [convertObjectsToLayoutMatrix] at hrows
  rw [convert_eq objects hobj]
  exact ⟨rfl, finalGrid_length objects, rowsOf_pairwise objects,
    fun r hr => finalGrid_row_filter objects hobj htype r hr⟩

/-- Witness for claim C1, at a concrete two-row layout. -/
theorem matrix_rows_back_to_front_witness :
    (convertObjectsToLayoutMatrix rtObjects).matrix =
      jsJoin ['\n'] ((convertObjectsToLayoutMatrix rtObjects).layout.map (jsJoin [','])) :=
  (matrix_rows_back_to_front rtObjects (by decide)
    (of_decide_eq_true (by with_unfolding_all rfl))).1

/-! ## Claim C2: round trip of serialize/parse -/

theorem mem_of_getLast?_eq_some {α : Type} {l : List α} {a : α}
    (h : l.getLast? = some a) : a ∈ l := by
  rw [List.getLast?_eq_head?_reverse] at h
  have : a ∈ l.reverse := List.mem_of_mem_head? (by rw [h]; rfl)
  simpa using this

theorem mem_intercalate_chars (sep : Char) (L : List Str) :
    ∀ c ∈ List.intercalate [sep] L, c = sep ∨ ∃ s ∈ L, c ∈ s := by
  induction L with
  | nil => intro c hc; simp [List.intercalate] at hc
  | cons first rest ih =>
    intro c hc
    cases rest with
    | nil =>
      exact Or.inr ⟨first, by simp, by simpa [List.intercalate] using hc⟩
    | cons y ys =>
      have hdecomp : List.intercalate [sep] (first :: y :: ys) =
          first ++ sep :: List.intercalate [sep] (y :: ys) := by
        simp [List.intercalate, List.intersperse]
      rw [hdecomp] at hc
      rcases List.mem_append.mp hc with hc | hc
      · exact Or.inr ⟨first, by simp, hc⟩
      · rcases List.mem_cons.mp hc with hc | hc
        · exact Or.inl hc
        · rcases ih c hc with hc | ⟨s, hs, hcs⟩
          · exact Or.inl hc
          · exact Or.inr ⟨s, by simp [hs], hcs⟩

theorem intercalate_eq_append (sep : Char) (first : Str) (rest : List Str) :
    ∃ t, List.intercalate [sep] (first :: rest) = first ++ t := by
  cases rest with
  | nil => exact ⟨[], by simp [List.intercalate]⟩
  | cons y ys => exact ⟨sep :: List.intercalate [sep] (y :: ys),
      by simp [List.intercalate, List.intersperse]⟩

theorem getLast?_intercalate (sep : Char) (L : List Str) (hne : ∀ s ∈ L, s ≠ []) :
    L ≠ [] → ∃ s ∈ L, (List.intercalate [sep] L).getLast? = s.getLast? := by
  induction L with
  | nil => intro h; exact absurd rfl h
  | cons first rest ih =>
    intro _
    cases rest with
    | nil => exact ⟨first, by simp, by simp [List.intercalate]⟩
    | cons y ys =>
      have hdecomp : List.intercalate [sep] (first :: y :: ys) =
          first ++ sep :: List.intercalate [sep] (y :: ys) := by
        simp [List.intercalate, List.intersperse]
      obtain ⟨s, hs, hlast⟩ := ih (fun q hq => hne q (by simp [hq])) (by simp)
      refine ⟨s, by simp [hs], ?_⟩
      rw [hdecomp, List.getLast?_append]
      obtain ⟨t, ht⟩ := intercalate_eq_append sep y ys
      have hynil : y ≠ [] := hne y (by simp)
      have hinter_ne : List.intercalate [sep] (y :: ys) ≠ [] := by
        rw [ht]
        intro hcon
        exact hynil (List.append_eq_nil.mp hcon).1
      have h2 : (sep :: List.intercalate [sep] (y :: ys)).getLast? =
          (List.intercalate [sep] (y :: ys)).getLast? := by
        rw [List.getLast?_cons]
        cases hx : (List.intercalate [sep] (y :: ys)).getLast? with
        | none =>
          exact absurd (List.getLast?_eq_none_iff.mp hx) hinter_ne
        | some a => rfl
      rw [h2, hlast]
      cases hx : s.getLast? with
      | none => exact absurd (List.getLast?_eq_none_iff.mp hx) (hne s (by simp [hs]))
      | some a => rfl

theorem jsTrim_eq_self_of_chars (s : Str) (h : ∀ c ∈ s, isWs c = false) :
    jsTrim s = s := by
  refine jsTrim_eq_self s ?_ ?_
  · intro c hc
    exact h c (List.mem_of_mem_head? (by rw [hc]; rfl))
  · intro c hc
    exact h c (mem_of_getLast?_eq_some hc)

theorem cell_mem_grid (objects : List LayoutObject) (hobj : objects ≠ [])
    (htype : ∀ d ∈ objects, d.type ≠ dd) :
    ∀ row ∈ finalGridOf objects, ∀ cell ∈ row,
      cell = dd ∨ cell ∈ objects.map LayoutObject.type := by
  intro row hrow cell hcell
  obtain ⟨r, hr, hrowr⟩ := List.mem_iff_getElem.mp hrow
  rw [finalGrid_length objects] at hr
  rw [← List.getD_eq_getElem _ [] (by rw [finalGrid_length objects]; exact hr),
    finalGrid_row_eq objects r hr] at hrowr
  rw [← hrowr] at hcell
  rcases List.mem_append.mp hcell with hcell | hcell
  · by_cases hdd : cell = dd
    · exact Or.inl hdd
    · right
      have hrowtypes : ∀ q ∈ (rowsOf objects).getD r [], q.type ≠ dd :=
        fun q hq => htype q (mem_rowsOf_subset objects (rowsOf_getD_mem objects r hr) hq)
      have inv := rowResult_inv objects hobj r ((rowsOf objects).getD r []) hrowtypes
      have hmem : cell ∈ ((rowResult objects r ((rowsOf objects).getD r [])).1.filter
          fun c => c ≠ dd) := List.mem_filter.mpr ⟨hcell, by simpa using hdd⟩
      have := inv.hperm.subset hmem
      obtain ⟨q, hq, rfl⟩ := List.mem_map.mp this
      exact List.mem_map.mpr
        ⟨q, mem_rowsOf_subset objects (rowsOf_getD_mem objects r hr) hq, rfl⟩
  · exact Or.inl (List.eq_of_mem_replicate hcell)

theorem palette_type_facts : ∀ t ∈ PALETTE_DESKS.map Prod.fst,
    t ≠ [] ∧ ∀ c ∈ t, c = '0' ∨ c = '1' := by decide

theorem cell_char_facts (objects : List LayoutObject) (hobj : objects ≠ [])
    (hpal : ∀ d ∈ objects, d.type ∈ PALETTE_DESKS.map Prod.fst) :
    ∀ row ∈ finalGridOf objects, ∀ cell ∈ row,
      cell ≠ [] ∧ ∀ c ∈ cell, c = '0' ∨ c = '1' ∨ c = '-' := by
  have htype : ∀ d ∈ objects, d.type ≠ dd := by
    intro d hd hcon
    have := (palette_type_facts d.type (hpal d hd)).2
    rw [hcon] at this
    rcases this '-' (by simp [dd]) with h | h <;> exact absurd h (by decide)
  intro row hrow cell hcell
  rcases cell_mem_grid objects hobj htype row hrow cell hcell with hdd | hmem
  · subst hdd
    exact ⟨by simp [dd], by intro c hc; simp only [dd, List.mem_cons] at hc
                            rcases hc with h | h
                            · exact Or.inr (Or.inr h)
                            · simp at h
                              exact Or.inr (Or.inr h)⟩
  · obtain ⟨d, hd, rfl⟩ := List.mem_map.mp hmem
    obtain ⟨h1, h2⟩ := palette_type_facts d.type (hpal d hd)
    exact ⟨h1, fun c hc => (h2 c hc).imp id Or.inl⟩

theorem goodChar_props (c : Char) (h : c = '0' ∨ c = '1' ∨ c = '-') :
    isWs c = false ∧ c ≠ ',' ∧ c ≠ '\n' := by
  rcases h with h | h | h <;> subst h <;> exact ⟨by decide, by decide, by decide⟩

theorem palette_ne_dd (objects : List LayoutObject)
    (hpal : ∀ d ∈ objects, d.type ∈ PALETTE_DESKS.map Prod.fst) :
    ∀ d ∈ objects, d.type ≠ dd := by
  intro d hd hcon
  have h := (palette_type_facts d.type (hpal d hd)).2
  rw [hcon] at h
  rcases h '-' (by simp [dd]) with h | h <;> exact absurd h (by decide)

theorem numColsOf_pos (objects : List LayoutObject) (hobj : objects ≠ []) :
    1 ≤ numColsOf objects := by
  rw [numColsOf_eq objects hobj]
  exact List.length_pos.mpr (columnCenters_ne_nil objects hobj)

theorem maxRowLength_pos (objects : List LayoutObject) (hobj : objects ≠ [])
    (htype : ∀ d ∈ objects, d.type ≠ dd) : 1 ≤ maxRowLength objects := by
  have hr0 : 0 < (rowsOf objects).length :=
    List.length_pos.mpr (rowsOf_ne_nil objects hobj)
  have hrowtypes : ∀ q ∈ (rowsOf objects).getD 0 [], q.type ≠ dd :=
    fun q hq => htype q (mem_rowsOf_subset objects (rowsOf_getD_mem objects 0 hr0) hq)
  have inv := rowResult_inv objects hobj 0 ((rowsOf objects).getD 0 []) hrowtypes
  have h0 : 0 < (layoutGridOf objects).length := by rw [layoutGrid_length]; exact hr0
  have hmem : (layoutGridOf objects).getD 0 [] ∈ layoutGridOf objects := by
    rw [List.getD_eq_getElem _ _ h0]; exact List.getElem_mem h0
  have hle := mem_le_foldl_max (layoutGridOf objects) 0 _ hmem
  have hlen : numColsOf objects ≤ ((layoutGridOf objects).getD 0 []).length := by
    rw [grid_row_eq objects 0 hr0]; exact inv.hlen
  have hpos := numColsOf_pos objects hobj
  unfold maxRowLength
  omega

theorem finalGrid_rows_ne_nil (objects : List LayoutObject) (hobj : objects ≠ [])
    (htype : ∀ d ∈ objects, d.type ≠ dd) :
    ∀ row ∈ finalGridOf objects, row ≠ [] := by
  intro row hrow hcon
  have h1 := finalGrid_rect objects row hrow
  have h2 := maxRowLength_pos objects hobj htype
  rw [hcon] at h1
  simp at h1
  omega

theorem matrix_line_facts (objects : List LayoutObject) (hobj : objects ≠ [])
    (hpal : ∀ d ∈ objects, d.type ∈ PALETTE_DESKS.map Prod.fst) :
    ∀ line ∈ (finalGridOf objects).map (jsJoin [',']),
      line ≠ [] ∧ ∀ c ∈ line, isWs c = false ∧ c ≠ '\n' := by
  intro line hline
  obtain ⟨row, hrow, rfl⟩ := List.mem_map.mp hline
  have hcells := cell_char_facts objects hobj hpal row hrow
  have hrne := finalGrid_rows_ne_nil objects hobj (palette_ne_dd objects hpal) row hrow
  constructor
  · cases row with
    | nil => exact absurd rfl hrne
    | cons first rest =>
      obtain ⟨t, ht⟩ := intercalate_eq_append ',' first rest
      have hfne : first ≠ [] := (hcells first (by simp)).1
      unfold jsJoin
      rw [ht]
      intro hcon
      exact hfne (List.append_eq_nil.mp hcon).1
  · intro c hc
    unfold jsJoin at hc
    rcases mem_intercalate_chars ',' row c hc with hc | ⟨s, hs, hcs⟩
    · subst hc; exact ⟨by decide, by decide⟩
    · have h := goodChar_props c ((hcells s hs).2 c hcs)
      exact ⟨h.1, h.2.2⟩

theorem matrix_lines_ne_nil (objects : List LayoutObject) (hobj : objects ≠ []) :
    (finalGridOf objects).map (jsJoin [',']) ≠ [] := by
  intro hcon
  have h : (finalGridOf objects).length = 0 := by
    simpa using congrArg List.length hcon
  rw [finalGrid_length] at h
  exact rowsOf_ne_nil objects hobj (List.length_eq_zero.mp h)

theorem jsTrim_matrixOf (objects : List LayoutObject) (hobj : objects ≠ [])
    (hpal : ∀ d ∈ objects, d.type ∈ PALETTE_DESKS.map Prod.fst) :
    jsTrim (matrixOf objects) = matrixOf objects := by
  have hlines := matrix_line_facts objects hobj hpal
  have hlne := matrix_lines_ne_nil objects hobj
  have hm : matrixOf objects =
      List.intercalate ['\n'] ((finalGridOf objects).map (jsJoin [','])) := rfl
  refine jsTrim_eq_self _ ?_ ?_
  · intro c hc
    rw [hm] at hc
    cases hl : (finalGridOf objects).map (jsJoin [',']) with
    | nil => exact absurd hl hlne
    | cons l0 rest =>
      rw [hl] at hc
      obtain ⟨t, ht⟩ := intercalate_eq_append '\n' l0 rest
      rw [ht] at hc
      have hl0 := hlines l0 (by rw [hl]; simp)
      cases hl0e : l0 with
      | nil => exact absurd hl0e hl0.1
      | cons a as =>
        rw [hl0e] at hc
        simp only [List.cons_append, List.head?_cons, Option.some.injEq] at hc
        subst hc
        exact (hl0.2 a (by rw [hl0e]; simp)).1
  · intro c hc
    rw [hm] at hc
    obtain ⟨s, hs, hlast⟩ :=
      getLast?_intercalate '\n' _ (fun q hq => (hlines q hq).1) hlne
    rw [hlast] at hc
    exact ((hlines s hs).2 c (mem_of_getLast?_eq_some hc)).1

theorem jsSplit_matrixOf (objects : List LayoutObject) (hobj : objects ≠ [])
    (hpal : ∀ d ∈ objects, d.type ∈ PALETTE_DESKS.map Prod.fst) :
    jsSplit '\n' (matrixOf objects) = (finalGridOf objects).map (jsJoin [',']) := by
  have hlines := matrix_line_facts objects hobj hpal
  have hm : matrixOf objects =
      List.intercalate ['\n'] ((finalGridOf objects).map (jsJoin [','])) := rfl
  rw [hm]
  refine jsSplit_intercalate '\n' _ (matrix_lines_ne_nil objects hobj) ?_
  intro s hs hc
  exact ((hlines s hs).2 '\n' hc).2 rfl

theorem jsSplit_grid_row (objects : List LayoutObject) (hobj : objects ≠ [])
    (hpal : ∀ d ∈ objects, d.type ∈ PALETTE_DESKS.map Prod.fst) :
    ∀ row ∈ finalGridOf objects, jsSplit ',' (jsJoin [','] row) = row := by
  intro row hrow
  have hcells := cell_char_facts objects hobj hpal row hrow
  have hrne := finalGrid_rows_ne_nil objects hobj (palette_ne_dd objects hpal) row hrow
  have hj : jsJoin [','] row = List.intercalate [','] row := rfl
  rw [hj]
  refine jsSplit_intercalate ',' row hrne ?_
  intro s hs hc
  exact (goodChar_props ',' ((hcells s hs).2 ',' hc)).2.1 rfl

theorem flatten_perm_of_forall₂ {α : Type} {L1 L2 : List (List α)}
    (h : List.Forall₂ List.Perm L1 L2) : List.Perm L1.flatten L2.flatten := by
  induction h with
  | nil => exact List.Perm.refl _
  | cons hrel _ ih =>
    simp only [List.flatten_cons]
    exact hrel.append ih

theorem filterMap_dd_eq_filter (l : List Str) :
    (l.filterMap fun c => if c ≠ dd then some c else none) =
      l.filter fun c => c ≠ dd := by
  induction l with
  | nil => rfl
  | cons a rest ih =>
    by_cases h : a = dd
    · have h1 : (if a ≠ dd then some a else none) = none := if_neg fun hc => hc h
      have h2 : decide (a ≠ dd) = false := by simpa using h
      rw [List.filterMap_cons, h1, List.filter_cons, h2, if_neg Bool.false_ne_true]
      exact ih
    · have h1 : (if a ≠ dd then some a else none) = some a := if_pos h
      have h2 : decide (a ≠ dd) = true := by simpa using h
      rw [List.filterMap_cons, h1, List.filter_cons, h2, if_pos rfl, ih]

theorem parse_matrixOf_eq (objects : List LayoutObject) (hobj : objects ≠ [])
    (hpal : ∀ d ∈ objects, d.type ∈ PALETTE_DESKS.map Prod.fst) :
    parseLayoutMatrixToObjects (matrixOf objects) =
      (((finalGridOf objects).enum.flatMap fun rp =>
        rp.2.enum.filterMap fun cp =>
          if cp.2 ≠ dd then some (parsedDesk rp.1 cp.1 cp.2) else none).enum.map
        fun p => { p.2 with id := p.1 }) := by
  unfold parseLayoutMatrixToObjects
  dsimp only
  rw [jsTrim_matrixOf objects hobj hpal, jsSplit_matrixOf objects hobj hpal]
  congr 1
  rw [List.enum_map, List.flatMap_def, List.map_map, List.flatMap_def]
  refine congrArg List.enum (congrArg List.flatten (List.map_congr_left ?_))
  rintro ⟨r, row⟩ hp
  have hrow : row ∈ finalGridOf objects := by
    obtain ⟨hlt, hget⟩ := List.getElem?_eq_some.mp (List.mem_enum_iff_getElem?.mp hp)
    have hm := List.getElem_mem hlt
    rwa [hget] at hm
  have hcells := cell_char_facts objects hobj hpal row hrow
  simp only [Function.comp_apply, Prod.map_apply, id_eq]
  rw [jsSplit_grid_row objects hobj hpal row hrow]
  refine List.filterMap_congr ?_
  rintro ⟨i, c⟩ hcp
  have hc : c ∈ row := by
    obtain ⟨hlt, hget⟩ := List.getElem?_eq_some.mp (List.mem_enum_iff_getElem?.mp hcp)
    have hm := List.getElem_mem hlt
    rwa [hget] at hm
  have htrim : jsTrim c = c :=
    jsTrim_eq_self_of_chars c fun ch hch =>
      (goodChar_props ch ((hcells c hc).2 ch hch)).1
  simp only [htrim]
  exact if_congr (and_iff_right (hcells c hc).1) rfl rfl

theorem parse_matrixOf_types (objects : List LayoutObject) (hobj : objects ≠ [])
    (hpal : ∀ d ∈ objects, d.type ∈ PALETTE_DESKS.map Prod.fst) :
    (parseLayoutMatrixToObjects (matrixOf objects)).map LayoutObject.type =
      ((finalGridOf objects).map fun row => row.filter fun c => c ≠ dd).flatten := by
  rw [parse_matrixOf_eq objects hobj hpal, List.map_map]
  have h1 : (LayoutObject.type ∘ fun p : Nat × LayoutObject => { p.2 with id := p.1 }) =
      (LayoutObject.type ∘ Prod.snd) := by
    funext p
    rfl
  rw [h1, ← List.map_map, List.enum_map_snd, List.map_flatMap]
  have h2 : (fun rp : Nat × List Str =>
      ((rp.2.enum.filterMap fun cp =>
        if cp.2 ≠ dd then some (parsedDesk rp.1 cp.1 cp.2) else none).map
          LayoutObject.type)) =
      (fun rp : Nat × List Str => rp.2.filter fun c => c ≠ dd) := by
    funext rp
    rw [List.map_filterMap]
    have h3 : (fun cp : Nat × Str =>
        (if cp.2 ≠ dd then some (parsedDesk rp.1 cp.1 cp.2) else none).map
          LayoutObject.type) =
        ((fun c : Str => if c ≠ dd then some c else none) ∘ Prod.snd) := by
      funext cp
      by_cases h : cp.2 ≠ dd
      · simp only [Function.comp_apply]
        rw [if_pos h, if_pos h]
        rfl
      · simp only [Function.comp_apply]
        rw [if_neg h, if_neg h]
        rfl
    rw [h3, ← List.filterMap_map, List.enum_map_snd, filterMap_dd_eq_filter]
  rw [h2]
  have h4 : (fun rp : Nat × List Str => rp.2.filter fun c => c ≠ dd) =
      ((fun row : List Str => row.filter fun c => c ≠ dd) ∘ Prod.snd) := rfl
  rw [List.flatMap_def, h4, ← List.map_map, List.enum_map_snd]

/-- Claim C2 counterexample: the two desks of `rtObjects` use palette
typeCodes, sit on the palette grid and do not overlap, and they serialize to
the matrix `"1\n111"`; yet re-serializing the parsed objects yields
`"1,--\n--,111"`, a different row/column topology (the two desks now occupy
distinct columns of a two-column grid), so `parse ∘ serialize` does not
reproduce the matrix topology. -/
theorem parse_serialize_changes_topology :
    (∀ d ∈ rtObjects, d.type ∈ PALETTE_DESKS.map Prod.fst) ∧
    List.Pairwise (fun a b => ¬overlapsHalfOpen a b) rtObjects ∧
    (convertObjectsToLayoutMatrix rtObjects).matrix =
      ['1', '\n', '1', '1', '1'] ∧
    (convertObjectsToLayoutMatrix
      (parseLayoutMatrixToObjects
        (convertObjectsToLayoutMatrix rtObjects).matrix)).matrix =
      ['1', ',', '-', '-', '\n', '-', '-', ',', '1', '1', '1'] :=
  of_decide_eq_true (by with_unfolding_all rfl)

/-- Claim C2 (amended): for desks whose typeCodes come from the palette,
parsing the serialized matrix back yields the same number of desks and the
same multiset of typeCodes; the claim's topology-preservation part is false
(see the counterexample). -/
theorem parse_serialize_preserves_desk_multiset (objects : List LayoutObject)
    (hpal : ∀ d ∈ objects, d.type ∈ PALETTE_DESKS.map Prod.fst) :
    (parseLayoutMatrixToObjects
      (convertObjectsToLayoutMatrix objects).matrix).length = objects.length ∧
    List.Perm
      ((parseLayoutMatrixToObjects
        (convertObjectsToLayoutMatrix objects).matrix).map LayoutObject.type)
      (objects.map LayoutObject.type) := by
  by_cases hobj : objects = []
  · subst hobj
    exact ⟨by decide, by decide⟩
  · have h1 : (convertObjectsToLayoutMatrix objects).matrix = matrixOf objects := by
      rw [convert_eq objects hobj]
    rw [h1]
    have htype := palette_ne_dd objects hpal
    have hperm : List.Perm
        ((parseLayoutMatrixToObjects (matrixOf objects)).map LayoutObject.type)
        (objects.map LayoutObject.type) := by
      rw [parse_matrixOf_types objects hobj hpal]
      have hf2 : List.Forall₂ List.Perm
          ((finalGridOf objects).map fun row => row.filter fun c => c ≠ dd)
          ((rowsOf objects).map fun row => row.map LayoutObject.type) := by
        rw [List.forall₂_iff_get]
        refine ⟨by simp [finalGrid_length], ?_⟩
        intro i h1i h2i
        have hi : i < (rowsOf objects).length := by simpa using h2i
        rw [List.get_eq_getElem, List.get_eq_getElem, List.getElem_map, List.getElem_map]
        have hfi := finalGrid_row_filter objects hobj htype i hi
        rw [List.getD_eq_getElem _ _ (by rw [finalGrid_length]; exact hi),
          List.getD_eq_getElem _ _ hi] at hfi
        exact hfi
      refine (flatten_perm_of_forall₂ hf2).trans ?_
      have h4 : ((rowsOf objects).map fun row => row.map LayoutObject.type).flatten =
          ((rowsOf objects).flatten).map LayoutObject.type := by
        rw [List.map_flatten]
      rw [h4]
      exact (rowsOf_flatten_perm objects).map LayoutObject.type
    refine ⟨?_, hperm⟩
    have hlen := hperm.length_eq
    simpa using hlen

/-- Witness for amended claim C2, at the concrete two-desk layout. -/
theorem parse_serialize_preserves_desk_multiset_witness :
    (parseLayoutMatrixToObjects
      (convertObjectsToLayoutMatrix rtObjects).matrix).length = rtObjects.length :=
  (parse_serialize_preserves_desk_multiset rtObjects (by decide)).1

/-! ## Claim C4: numbered-matrix labels -/

theorem labelOf_ne_dd (n : Nat) : labelOf n ≠ dd := by
  unfold labelOf dd
  intro hcon
  injection hcon with h1 h2
  exact absurd h1 (by decide)

theorem lookup_numbered_enumFrom (l : List LayoutObject) :
    ∀ (k i : Nat) (hi : i < l.length),
      (l.map LayoutObject.id).Nodup →
      List.lookup (l.get ⟨i, hi⟩).id
        ((List.enumFrom k l).map fun p => (p.2.id, p.1 + 1)) = some (k + i + 1) := by
  induction l with
  | nil =>
    intro k i hi
    exact absurd hi (Nat.not_lt_zero i)
  | cons a rest ih =>
    intro k i hi hnd
    rw [List.map_cons] at hnd
    obtain ⟨hhead, htail⟩ := List.nodup_cons.mp hnd
    cases i with
    | zero =>
      simp [List.enumFrom, List.lookup]
    | succ n =>
      have hn : n < rest.length := by simpa using hi
      have hget : (a :: rest).get ⟨n + 1, hi⟩ = rest.get ⟨n, hn⟩ := rfl
      have hne : (rest.get ⟨n, hn⟩).id ≠ a.id := by
        intro hcon
        exact hhead (hcon ▸ List.mem_map.mpr ⟨rest.get ⟨n, hn⟩, List.get_mem rest n hn, rfl⟩)
      rw [hget]
      have hstep : List.lookup (rest.get ⟨n, hn⟩).id
          ((List.enumFrom k (a :: rest)).map fun p => (p.2.id, p.1 + 1)) =
          List.lookup (rest.get ⟨n, hn⟩).id
            ((List.enumFrom (k + 1) rest).map fun p => (p.2.id, p.1 + 1)) := by
        simp only [List.enumFrom, List.map_cons, List.lookup]
        rw [beq_eq_false_iff_ne.mpr hne]
      rw [hstep]
      have harith : k + (n + 1) + 1 = (k + 1) + n + 1 := by omega
      rw [harith]
      exact ih (k + 1) n hn htail

theorem lookup_deskNumberMap (objects : List LayoutObject)
    (hids : (objects.map LayoutObject.id).Nodup) :
    ∀ (i : Nat) (hi : i < (uiSorted objects).length),
      List.lookup ((uiSorted objects).get ⟨i, hi⟩).id (deskNumberMap objects) =
        some (i + 1) := by
  intro i hi
  have hnd : ((uiSorted objects).map LayoutObject.id).Nodup :=
    ((List.perm_insertionSort _ objects).map LayoutObject.id).nodup_iff.mpr hids
  have h := lookup_numbered_enumFrom (uiSorted objects) 0 i hi hnd
  simpa [deskNumberMap, List.enum] using h

theorem orderedInsert_sorted_restricted (r : LayoutObject → LayoutObject → Prop)
    [DecidableRel r] (a : LayoutObject) :
    ∀ l : List LayoutObject,
      (∀ b ∈ l, r a b ∨ r b a) →
      (∀ b ∈ l, ∀ c ∈ l, r a b → r b c → r a c) →
      l.Sorted r → (l.orderedInsert r a).Sorted r := by
  intro l
  induction l with
  | nil =>
    intro _ _ _
    simp [List.orderedInsert]
  | cons b bs ih =>
    intro htot htrans hs
    rw [List.orderedInsert]
    by_cases hab : r a b
    · rw [if_pos hab, List.sorted_cons]
      refine ⟨?_, hs⟩
      intro y hy
      rcases List.mem_cons.mp hy with rfl | hy
      · exact hab
      · exact htrans b (by simp) y (by simp [hy]) hab ((List.sorted_cons.mp hs).1 y hy)
    · rw [if_neg hab, List.sorted_cons]
      refine ⟨?_, ih (fun x hx => htot x (by simp [hx]))
        (fun x hx y hy => htrans x (by simp [hx]) y (by simp [hy]))
        (List.sorted_cons.mp hs).2⟩
      intro y hy
      rcases (List.mem_orderedInsert r).mp hy with rfl | hy
      · rcases htot b (by simp) with h | h
        · exact absurd h hab
        · exact h
      · exact (List.sorted_cons.mp hs).1 y hy

theorem insertionSort_sorted_restricted (r : LayoutObject → LayoutObject → Prop)
    [DecidableRel r] :
    ∀ l : List LayoutObject,
      (∀ a ∈ l, ∀ b ∈ l, r a b ∨ r b a) →
      (∀ a ∈ l, ∀ b ∈ l, ∀ c ∈ l, r a b → r b c → r a c) →
      (List.insertionSort r l).Sorted r := by
  intro l
  induction l with
  | nil =>
    intro _ _
    simp
  | cons a rest ih =>
    intro htot htrans
    rw [List.insertionSort]
    have hsub : ∀ x ∈ List.insertionSort r rest, x ∈ a :: rest :=
      fun x hx => List.mem_cons_of_mem a ((List.perm_insertionSort r rest).subset hx)
    exact orderedInsert_sorted_restricted r a (List.insertionSort r rest)
      (fun b hb => htot a (by simp) b (hsub b hb))
      (fun b hb c hc => htrans a (by simp) b (hsub b hb) c (hsub c hc))
      (ih (fun x hx y hy => htot x (by simp [hx]) y (by simp [hy]))
        (fun x hx y hy z hz => htrans x (by simp [hx]) y (by simp [hy]) z (by simp [hz])))

theorem cmpUI_refl_le (d : LayoutObject) : cmpUI d d ≤ 0 := by
  unfold cmpUI
  simp only [sub_self, abs_zero]
  rw [if_neg (by norm_num [DESK_HEIGHT_UNITS])]

theorem cmpUI_le_total_sep (a b : LayoutObject)
    (h : (a.y = b.y ∧ a.x ≠ b.x) ∨ |a.y - b.y| > DESK_HEIGHT_UNITS / 2) :
    cmpUI a b ≤ 0 ∨ cmpUI b a ≤ 0 := by
  have hlt : ¬((0 : ℚ) > DESK_HEIGHT_UNITS / 2) := by norm_num [DESK_HEIGHT_UNITS]
  rcases h with ⟨hy, _⟩ | hgap
  · unfold cmpUI
    simp only [hy, sub_self, abs_zero]
    rw [if_neg hlt, if_neg hlt]
    rcases le_total a.x b.x with h | h
    · exact Or.inl (by linarith)
    · exact Or.inr (by linarith)
  · have hgap2 : |b.y - a.y| > DESK_HEIGHT_UNITS / 2 := by rwa [abs_sub_comm]
    unfold cmpUI
    rw [if_pos hgap, if_pos hgap2]
    rcases le_total a.y b.y with h | h
    · exact Or.inr (by linarith)
    · exact Or.inl (by linarith)

theorem cmpUI_trans_sep (a b c : LayoutObject)
    (hab : a = b ∨ (a.y = b.y ∧ a.x ≠ b.x) ∨ |a.y - b.y| > DESK_HEIGHT_UNITS / 2)
    (hbc : b = c ∨ (b.y = c.y ∧ b.x ≠ c.x) ∨ |b.y - c.y| > DESK_HEIGHT_UNITS / 2)
    (hac : a = c ∨ (a.y = c.y ∧ a.x ≠ c.x) ∨ |a.y - c.y| > DESK_HEIGHT_UNITS / 2)
    (h1 : cmpUI a b ≤ 0) (h2 : cmpUI b c ≤ 0) : cmpUI a c ≤ 0 := by
  have hlt : ¬((0 : ℚ) > DESK_HEIGHT_UNITS / 2) := by norm_num [DESK_HEIGHT_UNITS]
  rcases hab with rfl | hab
  · exact h2
  rcases hbc with rfl | hbc
  · exact h1
  rcases hac with rfl | hac
  · exact cmpUI_refl_le a
  rcases hab with ⟨hyab, hxab⟩ | hgab
  · unfold cmpUI at h1
    simp only [hyab, sub_self, abs_zero] at h1
    rw [if_neg hlt] at h1
    have haxb : a.x < b.x := lt_of_le_of_ne (by linarith) hxab
    rcases hbc with ⟨hybc, hxbc⟩ | hgbc
    · unfold cmpUI at h2
      simp only [hybc, sub_self, abs_zero] at h2
      rw [if_neg hlt] at h2
      have hbxc : b.x < c.x := lt_of_le_of_ne (by linarith) hxbc
      rcases hac with ⟨hyac, _⟩ | hgac
      · unfold cmpUI
        simp only [hyac, sub_self, abs_zero]
        rw [if_neg hlt]
        linarith
      · exfalso
        rw [hyab, hybc, sub_self, abs_zero] at hgac
        exact hlt hgac
    · unfold cmpUI at h2
      rw [if_pos hgbc] at h2
      have hne : c.y ≠ b.y := by
        intro he
        rw [he, sub_self, abs_zero] at hgbc
        exact hlt hgbc
      have hcyb : c.y < b.y := lt_of_le_of_ne (by linarith) hne
      have hgac : |a.y - c.y| > DESK_HEIGHT_UNITS / 2 := by rw [hyab]; exact hgbc
      unfold cmpUI
      rw [if_pos hgac]
      linarith
  · unfold cmpUI at h1
    rw [if_pos hgab] at h1
    have hne : b.y ≠ a.y := by
      intro he
      rw [he, sub_self, abs_zero] at hgab
      exact hlt hgab
    have hbya : b.y < a.y := lt_of_le_of_ne (by linarith) hne
    rcases hbc with ⟨hybc, hxbc⟩ | hgbc
    · have hgac : |a.y - c.y| > DESK_HEIGHT_UNITS / 2 := by rw [← hybc]; exact hgab
      unfold cmpUI
      rw [if_pos hgac]
      linarith [hybc]
    · unfold cmpUI at h2
      rw [if_pos hgbc] at h2
      have hne2 : c.y ≠ b.y := by
        intro he
        rw [he, sub_self, abs_zero] at hgbc
        exact hlt hgbc
      have hcyb : c.y < b.y := lt_of_le_of_ne (by linarith) hne2
      rcases hac with ⟨hyac, _⟩ | hgac
      · exfalso
        rw [hyac] at hbya
        linarith
      · unfold cmpUI
        rw [if_pos hgac]
        linarith

theorem cmpUI_le_visualPrec (a b : LayoutObject)
    (hsepab : (a.y = b.y ∧ a.x ≠ b.x) ∨ |a.y - b.y| > DESK_HEIGHT_UNITS / 2)
    (h : cmpUI a b ≤ 0) : visualPrec a b := by
  have hlt : ¬((0 : ℚ) > DESK_HEIGHT_UNITS / 2) := by norm_num [DESK_HEIGHT_UNITS]
  rcases hsepab with ⟨hy, hx⟩ | hgap
  · right
    constructor
    · rw [hy, sub_self, abs_zero]
      norm_num [DESK_HEIGHT_UNITS]
    · unfold cmpUI at h
      simp only [hy, sub_self, abs_zero] at h
      rw [if_neg hlt] at h
      exact lt_of_le_of_ne (by linarith) hx
  · left
    refine ⟨hgap, ?_⟩
    unfold cmpUI at h
    rw [if_pos hgap] at h
    have hne : b.y ≠ a.y := by
      intro he
      rw [he, sub_self, abs_zero] at hgap
      exact hlt hgap
    exact lt_of_le_of_ne (by linarith) hne

theorem uiSorted_pairwise_visualPrec (objects : List LayoutObject)
    (hsep : objects.Pairwise fun d e =>
      (d.y = e.y ∧ d.x ≠ e.x) ∨ |d.y - e.y| > DESK_HEIGHT_UNITS / 2) :
    (uiSorted objects).Pairwise visualPrec := by
  have hsym0 : ∀ d e : LayoutObject,
      ((d.y = e.y ∧ d.x ≠ e.x) ∨ |d.y - e.y| > DESK_HEIGHT_UNITS / 2) →
      ((e.y = d.y ∧ e.x ≠ d.x) ∨ |e.y - d.y| > DESK_HEIGHT_UNITS / 2) := by
    intro d e h
    rcases h with ⟨h1, h2⟩ | h
    · exact Or.inl ⟨h1.symm, fun hc => h2 hc.symm⟩
    · exact Or.inr (by rwa [abs_sub_comm])
  have hsym : Symmetric (fun d e : LayoutObject =>
      (d.y = e.y ∧ d.x ≠ e.x) ∨ |d.y - e.y| > DESK_HEIGHT_UNITS / 2) := by
    intro x y h
    exact hsym0 x y h
  have hmem : ∀ x ∈ objects, ∀ y ∈ objects, x ≠ y →
      (x.y = y.y ∧ x.x ≠ y.x) ∨ |x.y - y.y| > DESK_HEIGHT_UNITS / 2 :=
    fun x hx y hy hxy =>
      List.Pairwise.forall (fun a b hab => hsym0 a b hab) hsep hx hy hxy
  have hsort : (List.insertionSort (fun a b => cmpUI a b ≤ 0) objects).Sorted
      (fun a b => cmpUI a b ≤ 0) := by
    refine insertionSort_sorted_restricted _ objects ?_ ?_
    · intro x hx y hy
      by_cases hxy : x = y
      · exact Or.inl (hxy ▸ cmpUI_refl_le x)
      · exact cmpUI_le_total_sep x y (hmem x hx y hy hxy)
    · intro x hx y hy z hz h1 h2
      refine cmpUI_trans_sep x y z ?_ ?_ ?_ h1 h2
      · by_cases h : x = y
        · exact Or.inl h
        · exact Or.inr (hmem x hx y hy h)
      · by_cases h : y = z
        · exact Or.inl h
        · exact Or.inr (hmem y hy z hz h)
      · by_cases h : x = z
        · exact Or.inl h
        · exact Or.inr (hmem x hx z hz h)
  have hsepui : (uiSorted objects).Pairwise (fun d e =>
      (d.y = e.y ∧ d.x ≠ e.x) ∨ |d.y - e.y| > DESK_HEIGHT_UNITS / 2) :=
    ((List.perm_insertionSort _ objects).pairwise_iff
      (fun hab => hsym0 _ _ hab)).mpr hsep
  have hsortui : (uiSorted objects).Pairwise (fun a b => cmpUI a b ≤ 0) := hsort
  exact (hsortui.and hsepui).imp fun h => cmpUI_le_visualPrec _ _ h.2 h.1

theorem lookup_append_of_not_mem {β : Type} (l1 l2 : List ((Nat × Nat) × β))
    (k : Nat × Nat) (h : ∀ e ∈ l1, e.1 ≠ k) :
    List.lookup k (l1 ++ l2) = List.lookup k l2 := by
  induction l1 with
  | nil => rfl
  | cons a rest ih =>
    obtain ⟨k1, v1⟩ := a
    have hne : (k == k1) = false := by
      rw [beq_eq_false_iff_ne]
      intro hc
      exact h (k1, v1) (by simp) (by simp [hc.symm])
    rw [List.cons_append]
    simp only [List.lookup, hne]
    exact ih fun e he => h e (by simp [he])

theorem lookup_append_some {β : Type} (l1 l2 : List ((Nat × Nat) × β))
    (k : Nat × Nat) (v : β) (h : List.lookup k l1 = some v) :
    List.lookup k (l1 ++ l2) = some v := by
  induction l1 with
  | nil => simp [List.lookup] at h
  | cons a rest ih =>
    obtain ⟨k1, v1⟩ := a
    rw [List.cons_append]
    cases hbeq : k == k1 with
    | true =>
      simp only [List.lookup, hbeq] at h ⊢
      exact h
    | false =>
      simp only [List.lookup, hbeq] at h ⊢
      exact ih h

theorem lookup_eq_some_of_mem_nodup {β : Type} (l : List ((Nat × Nat) × β))
    (k : Nat × Nat) (v : β) (hm : (k, v) ∈ l) (hnd : (l.map Prod.fst).Nodup) :
    List.lookup k l = some v := by
  induction l with
  | nil => simp at hm
  | cons a rest ih =>
    obtain ⟨k1, v1⟩ := a
    rw [List.map_cons] at hnd
    obtain ⟨hhead, htail⟩ := List.nodup_cons.mp hnd
    rcases List.mem_cons.mp hm with he | hm2
    · injection he with he1 he2
      subst he1
      subst he2
      simp [List.lookup]
    · have hne : (k == k1) = false := by
        rw [beq_eq_false_iff_ne]
        intro hc
        exact hhead (hc ▸ List.mem_map.mpr ⟨(k, v), hm2, rfl⟩)
      simp only [List.lookup, hne]
      exact ih hm2 htail

theorem lookup_flatten_tagged {β : Type} (segs : List (List ((Nat × Nat) × β))) :
    ∀ (k0 i : Nat) (hi : i < segs.length) (c : Nat) (v : β),
      (∀ j, ∀ hj : j < segs.length, ∀ e ∈ segs.get ⟨j, hj⟩, e.1.1 = k0 + j) →
      List.lookup (k0 + i, c) (segs.get ⟨i, hi⟩) = some v →
      List.lookup (k0 + i, c) segs.flatten = some v := by
  induction segs with
  | nil =>
    intro k0 i hi
    exact absurd hi (Nat.not_lt_zero i)
  | cons s rest ih =>
    intro k0 i hi c v htag hin
    rw [List.flatten_cons]
    cases i with
    | zero =>
      exact lookup_append_some s rest.flatten _ v hin
    | succ n =>
      have hn : n < rest.length := by simpa using hi
      have hs : ∀ e ∈ s, e.1 ≠ (k0 + (n + 1), c) := by
        intro e he hc
        have htag0 := htag 0 (by simp) e he
        rw [hc] at htag0
        simp at htag0
      rw [lookup_append_of_not_mem s rest.flatten _ hs]
      have harith : k0 + (n + 1) = (k0 + 1) + n := by omega
      rw [harith]
      refine ih (k0 + 1) n hn c v ?_ ?_
      · intro j hj e he
        have := htag (j + 1) (by simpa using hj) e he
        rw [this]
        omega
      · have hget : (s :: rest).get ⟨n + 1, hi⟩ = rest.get ⟨n, hn⟩ := rfl
        rw [hget] at hin
        rw [← harith]
        exact hin

set_option maxHeartbeats 1600000 in
theorem positionMap_segs_get (objects : List LayoutObject) (j : Nat)
    (hj : j < (rowsOf objects).length)
    (hj2 : j < ((rowsOf objects).enum.map fun p => (rowResult objects p.1 p.2).2).length) :
    ((rowsOf objects).enum.map fun p => (rowResult objects p.1 p.2).2).get ⟨j, hj2⟩ =
      (rowResult objects j ((rowsOf objects).getD j [])).2 := by
  rw [List.get_eq_getElem, List.getElem_map, List.getElem_enum,
    List.getD_eq_getElem _ _ hj]

set_option maxHeartbeats 1600000 in
theorem lookup_positionMap (objects : List LayoutObject) (hobj : objects ≠ [])
    (htype : ∀ d ∈ objects, d.type ≠ dd) (r c id0 : Nat)
    (hr : r < (rowsOf objects).length)
    (he : ((r, c), id0) ∈ (rowResult objects r ((rowsOf objects).getD r [])).2) :
    List.lookup (r, c) (positionMapOf objects) = some id0 := by
  have hrowinv : ∀ j, ∀ hj : j < (rowsOf objects).length,
      RowInv (numColsOf objects) j ((rowsOf objects).getD j [])
        (rowResult objects j ((rowsOf objects).getD j [])).1
        (rowResult objects j ((rowsOf objects).getD j [])).2 :=
    fun j hj => rowResult_inv objects hobj j _
      (fun q hq => htype q (mem_rowsOf_subset objects (rowsOf_getD_mem objects j hj) hq))
  have hnd : (((rowResult objects r ((rowsOf objects).getD r [])).2).map
      Prod.fst).Nodup := by
    have h := (hrowinv r hr).hnodup
    have heq : ((rowResult objects r ((rowsOf objects).getD r [])).2).map
        (fun e => e.1.2) =
        (((rowResult objects r ((rowsOf objects).getD r [])).2).map
          Prod.fst).map Prod.snd := by
      rw [List.map_map]
      rfl
    rw [heq] at h
    exact List.Nodup.of_map _ h
  have hin := lookup_eq_some_of_mem_nodup _ _ _ he hnd
  have hlen : ((rowsOf objects).enum.map
      fun p => (rowResult objects p.1 p.2).2).length = (rowsOf objects).length := by
    simp [List.enum_length]
  have hr2 : r < ((rowsOf objects).enum.map
      fun p => (rowResult objects p.1 p.2).2).length := by
    rw [hlen]
    exact hr
  have htag : ∀ j, ∀ hj : j < ((rowsOf objects).enum.map
      fun p => (rowResult objects p.1 p.2).2).length,
      ∀ e ∈ ((rowsOf objects).enum.map
        fun p => (rowResult objects p.1 p.2).2).get ⟨j, hj⟩, e.1.1 = 0 + j := by
    intro j hj e he2
    have hjr : j < (rowsOf objects).length := by rw [← hlen]; exact hj
    rw [positionMap_segs_get objects j hjr hj] at he2
    have hk := ((hrowinv j hjr).hkeys e he2).1
    omega
  have hin2 : List.lookup (0 + r, c) (((rowsOf objects).enum.map
      fun p => (rowResult objects p.1 p.2).2).get ⟨r, hr2⟩) = some id0 := by
    rw [positionMap_segs_get objects r hr hr2]
    simpa using hin
  have hmain := lookup_flatten_tagged _ 0 r hr2 c id0 htag hin2
  unfold positionMapOf
  simpa using hmain

theorem filter_ne_dd_map (g : Nat × Str → Str) (l : List (Nat × Str))
    (h : ∀ cp ∈ l, (g cp ≠ dd ↔ cp.2 ≠ dd)) :
    ((l.map g).filter fun s => s ≠ dd) = (l.filter fun cp => cp.2 ≠ dd).map g := by
  induction l with
  | nil => rfl
  | cons a rest ih =>
    rw [List.map_cons, List.filter_cons, List.filter_cons]
    by_cases hd : a.2 = dd
    · have hga : g a = dd := by
        by_contra hc
        exact (h a (by simp)).mp hc hd
      rw [if_neg (by simp [hga]), if_neg (by simp [hd])]
      exact ih fun cp hcp => h cp (by simp [hcp])
    · rw [if_pos (by simpa using (h a (by simp)).mpr hd), if_pos (by simpa using hd),
        List.map_cons, ih fun cp hcp => h cp (by simp [hcp])]

theorem numberedGrid_row_eq (objects : List LayoutObject) (r : Nat)
    (hr : r < (rowsOf objects).length) :
    (numberedGridOf objects).getD r [] =
      ((finalGridOf objects).getD r []).enum.map fun cp =>
        if cp.2 ≠ dd then
          match List.lookup (r, cp.1) (positionMapOf objects) with
          | some deskId =>
            match List.lookup deskId (deskNumberMap objects) with
            | some deskNumber => labelOf deskNumber
            | none => dd
          | none => dd
        else dd := by
  unfold numberedGridOf
  have hfg : r < (finalGridOf objects).length := by
    rw [finalGrid_length]
    exact hr
  have h1 : r < ((finalGridOf objects).enum.map fun rp =>
      rp.2.enum.map fun cp =>
        if cp.2 ≠ dd then
          match List.lookup (rp.1, cp.1) (positionMapOf objects) with
          | some deskId =>
            match List.lookup deskId (deskNumberMap objects) with
            | some deskNumber => labelOf deskNumber
            | none => dd
          | none => dd
        else dd).length := by
    simpa [List.enum_length] using hfg
  rw [List.getD_eq_getElem _ _ h1, List.getElem_map, List.getElem_enum,
    List.getD_eq_getElem _ _ hfg]

theorem numberedGrid_length (objects : List LayoutObject) :
    (numberedGridOf objects).length = (rowsOf objects).length := by
  unfold numberedGridOf
  simp [List.enum_length, finalGrid_length]

theorem getD_replicate_dd (K j : Nat) : (List.replicate K dd).getD j dd = dd := by
  rw [List.getD_eq_getElem?_getD, List.getElem?_replicate]
  split
  · rfl
  · rfl

theorem row_filled_entries_perm (objects : List LayoutObject) (hobj : objects ≠ [])
    (htype : ∀ d ∈ objects, d.type ≠ dd) (r : Nat)
    (hr : r < (rowsOf objects).length) :
    List.Perm
      ((((finalGridOf objects).getD r []).enum.filter fun cp => cp.2 ≠ dd).map
        fun cp => ((r, cp.1), (List.lookup (r, cp.1) (positionMapOf objects)).getD 0))
      (rowResult objects r ((rowsOf objects).getD r [])).2 := by
  have inv := rowResult_inv objects hobj r ((rowsOf objects).getD r [])
    (fun q hq => htype q (mem_rowsOf_subset objects (rowsOf_getD_mem objects r hr) hq))
  have hrow := finalGrid_row_eq objects r hr
  have hpm_nd : ((rowResult objects r ((rowsOf objects).getD r [])).2).Nodup :=
    List.Nodup.of_map _ inv.hnodup
  have henum_nd : (((finalGridOf objects).getD r []).enum).Nodup := by
    refine List.Nodup.of_map Prod.fst ?_
    rw [List.enum_map_fst]
    exact List.nodup_range _
  have hfilt_nd := henum_nd.filter (fun cp => decide (cp.2 ≠ dd))
  have hdet : ∀ cp ∈ ((finalGridOf objects).getD r []).enum,
      cp.1 < ((finalGridOf objects).getD r []).length ∧
      ((finalGridOf objects).getD r []).getD cp.1 dd = cp.2 := by
    intro cp hcp
    obtain ⟨hlt, hget⟩ := List.getElem?_eq_some.mp (List.mem_enum_iff_getElem?.mp hcp)
    refine ⟨hlt, ?_⟩
    rw [List.getD_eq_getElem _ _ hlt, hget]
  have hinj : ∀ cp1 ∈ (((finalGridOf objects).getD r []).enum.filter
        fun cp => cp.2 ≠ dd),
      ∀ cp2 ∈ (((finalGridOf objects).getD r []).enum.filter fun cp => cp.2 ≠ dd),
      (((r, cp1.1), (List.lookup (r, cp1.1) (positionMapOf objects)).getD 0) =
        ((r, cp2.1), (List.lookup (r, cp2.1) (positionMapOf objects)).getD 0)) →
      cp1 = cp2 := by
    intro cp1 h1 cp2 h2 hf
    have hc : cp1.1 = cp2.1 := by
      have := congrArg (fun q : (Nat × Nat) × Nat => q.1.2) hf
      simpa using this
    obtain ⟨hlt1, hget1⟩ := hdet cp1 (List.mem_of_mem_filter h1)
    obtain ⟨hlt2, hget2⟩ := hdet cp2 (List.mem_of_mem_filter h2)
    refine Prod.ext hc ?_
    rw [← hget1, ← hget2, hc]
  have hfwd : ∀ cp ∈ (((finalGridOf objects).getD r []).enum.filter
        fun cp => cp.2 ≠ dd),
      ((r, cp.1), (List.lookup (r, cp.1) (positionMapOf objects)).getD 0) ∈
        (rowResult objects r ((rowsOf objects).getD r [])).2 := by
    intro cp hcp
    have hcpe : cp ∈ ((finalGridOf objects).getD r []).enum :=
      List.mem_of_mem_filter hcp
    have hcpd : cp.2 ≠ dd := by
      have := List.of_mem_filter hcp
      simpa using this
    obtain ⟨hlt, hget⟩ := hdet cp hcpe
    by_cases hc : cp.1 < ((rowResult objects r ((rowsOf objects).getD r [])).1).length
    · have hcell : ((rowResult objects r ((rowsOf objects).getD r [])).1).getD cp.1 dd
          = cp.2 := by
        rw [← hget, hrow, List.getD_append _ _ _ _ hc]
      obtain ⟨e, hepm, hecol⟩ := inv.hfill cp.1 hc (by rw [hcell]; exact hcpd)
      obtain ⟨⟨e1, e2⟩, ev⟩ := e
      have hek := inv.hkeys _ hepm
      simp only at hek hecol
      subst hecol
      rw [hek.1] at hepm
      have hlook := lookup_positionMap objects hobj htype r cp.1 ev hr hepm
      rw [hlook]
      exact hepm
    · exfalso
      push_neg at hc
      have hdd : ((finalGridOf objects).getD r []).getD cp.1 dd = dd := by
        rw [hrow, List.getD_append_right _ _ _ _ hc, getD_replicate_dd]
      exact hcpd (by rw [← hget]; exact hdd)
  have hbwd : ∀ e ∈ (rowResult objects r ((rowsOf objects).getD r [])).2,
      e ∈ ((((finalGridOf objects).getD r []).enum.filter fun cp => cp.2 ≠ dd).map
        fun cp => ((r, cp.1), (List.lookup (r, cp.1) (positionMapOf objects)).getD 0)) := by
    intro e hepm
    obtain ⟨d, hd, hdid, hcell⟩ := inv.hcell e hepm
    have hek := inv.hkeys e hepm
    have hdtype : d.type ≠ dd :=
      htype d (mem_rowsOf_subset objects (rowsOf_getD_mem objects r hr) hd)
    have hlt : e.1.2 < ((finalGridOf objects).getD r []).length := by
      rw [hrow]
      simp only [List.length_append, List.length_replicate]
      omega
    have hgetrow : ((finalGridOf objects).getD r []).getD e.1.2 dd =
        ((rowResult objects r ((rowsOf objects).getD r [])).1).getD e.1.2 dd := by
      rw [hrow, List.getD_append _ _ _ _ hek.2]
    have hmem_enum : (e.1.2, ((finalGridOf objects).getD r []).getD e.1.2 dd) ∈
        ((finalGridOf objects).getD r []).enum := by
      rw [List.mem_enum_iff_getElem?, List.getD_eq_getElem _ _ hlt]
      exact List.getElem?_eq_some.mpr ⟨hlt, rfl⟩
    have hmem_filt : (e.1.2, ((finalGridOf objects).getD r []).getD e.1.2 dd) ∈
        (((finalGridOf objects).getD r []).enum.filter fun cp => cp.2 ≠ dd) := by
      refine List.mem_filter.mpr ⟨hmem_enum, ?_⟩
      have hval : ((finalGridOf objects).getD r []).getD e.1.2 dd ≠ dd := by
        rw [hgetrow, hcell]
        exact hdtype
      exact decide_eq_true hval
    refine List.mem_map.mpr
      ⟨(e.1.2, ((finalGridOf objects).getD r []).getD e.1.2 dd), hmem_filt, ?_⟩
    obtain ⟨⟨e1, e2⟩, ev⟩ := e
    simp only at hek ⊢
    rw [hek.1] at hepm
    have hlook := lookup_positionMap objects hobj htype r e2 ev hr hepm
    rw [hlook, hek.1]
    rfl
  exact (List.perm_ext_iff_of_nodup (List.Nodup.map_on hinj hfilt_nd) hpm_nd).mpr
    fun a =>
      ⟨fun ha => by
        obtain ⟨cp, hcp, rfl⟩ := List.mem_map.mp ha
        exact hfwd cp hcp,
      fun ha => hbwd a ha⟩

theorem numLabelOf_of_mem (objects : List LayoutObject)
    (hids : (objects.map LayoutObject.id).Nodup) (d : LayoutObject)
    (hd : d ∈ objects) :
    ∃ n, List.lookup d.id (deskNumberMap objects) = some n ∧
      numLabelOf objects d.id = labelOf n := by
  have hdui : d ∈ uiSorted objects :=
    (List.perm_insertionSort _ objects).symm.subset hd
  obtain ⟨⟨i, hi⟩, hget⟩ := List.mem_iff_get.mp hdui
  have hlk := lookup_deskNumberMap objects hids i hi
  rw [hget] at hlk
  refine ⟨i + 1, hlk, ?_⟩
  unfold numLabelOf
  rw [hlk]

theorem numbered_row_label_perm (objects : List LayoutObject) (hobj : objects ≠ [])
    (htype : ∀ d ∈ objects, d.type ≠ dd)
    (hids : (objects.map LayoutObject.id).Nodup) (r : Nat)
    (hr : r < (rowsOf objects).length) :
    List.Perm
      (((numberedGridOf objects).getD r []).filter fun s => s ≠ dd)
      (((rowResult objects r ((rowsOf objects).getD r [])).2).map
        fun e => numLabelOf objects e.2) := by
  rw [numberedGrid_row_eq objects r hr]
  have hresolve : ∀ cp ∈ ((finalGridOf objects).getD r []).enum, cp.2 ≠ dd →
      ∃ v n, List.lookup (r, cp.1) (positionMapOf objects) = some v ∧
        List.lookup v (deskNumberMap objects) = some n := by
    intro cp hcp hcpd
    have hcpf : cp ∈ (((finalGridOf objects).getD r []).enum.filter
        fun cp => cp.2 ≠ dd) := List.mem_filter.mpr ⟨hcp, decide_eq_true hcpd⟩
    have hmemmap : ((r, cp.1),
        (List.lookup (r, cp.1) (positionMapOf objects)).getD 0) ∈
        (rowResult objects r ((rowsOf objects).getD r [])).2 :=
      (row_filled_entries_perm objects hobj htype r hr).subset
        (List.mem_map.mpr ⟨cp, hcpf, rfl⟩)
    have hlook : List.lookup (r, cp.1) (positionMapOf objects) =
        some ((List.lookup (r, cp.1) (positionMapOf objects)).getD 0) :=
      lookup_positionMap objects hobj htype r cp.1 _ hr hmemmap
    have inv := rowResult_inv objects hobj r ((rowsOf objects).getD r [])
      (fun q hq => htype q (mem_rowsOf_subset objects (rowsOf_getD_mem objects r hr) hq))
    obtain ⟨d, hd, hdid, -⟩ := inv.hcell _ hmemmap
    obtain ⟨n, hn, -⟩ := numLabelOf_of_mem objects hids d
      (mem_rowsOf_subset objects (rowsOf_getD_mem objects r hr) hd)
    refine ⟨_, n, hlook, ?_⟩
    rw [hdid] at hn
    exact hn
  have hiff : ∀ cp ∈ ((finalGridOf objects).getD r []).enum,
      ((if cp.2 ≠ dd then
          match List.lookup (r, cp.1) (positionMapOf objects) with
          | some deskId =>
            match List.lookup deskId (deskNumberMap objects) with
            | some deskNumber => labelOf deskNumber
            | none => dd
          | none => dd
        else dd) ≠ dd ↔ cp.2 ≠ dd) := by
    intro cp hcp
    by_cases hcpd : cp.2 = dd
    · simp [hcpd]
    · obtain ⟨v, n, hlv, hln⟩ := hresolve cp hcp hcpd
      have hval : (if cp.2 ≠ dd then
          match List.lookup (r, cp.1) (positionMapOf objects) with
          | some deskId =>
            match List.lookup deskId (deskNumberMap objects) with
            | some deskNumber => labelOf deskNumber
            | none => dd
          | none => dd
        else dd) = labelOf n := by
        rw [if_pos hcpd, hlv]
        show numLabelOf objects v = labelOf n
        unfold numLabelOf
        rw [hln]
      rw [hval]
      constructor
      · intro _
        exact hcpd
      · intro _
        exact labelOf_ne_dd n
  have hmapeq : ∀ cp ∈ (((finalGridOf objects).getD r []).enum.filter
      fun cp => cp.2 ≠ dd),
      (if cp.2 ≠ dd then
          match List.lookup (r, cp.1) (positionMapOf objects) with
          | some deskId =>
            match List.lookup deskId (deskNumberMap objects) with
            | some deskNumber => labelOf deskNumber
            | none => dd
          | none => dd
        else dd) =
        numLabelOf objects ((List.lookup (r, cp.1) (positionMapOf objects)).getD 0) := by
    intro cp hcpf
    have hcp := List.mem_of_mem_filter hcpf
    have hcpd : cp.2 ≠ dd := by simpa using List.of_mem_filter hcpf
    obtain ⟨v, n, hlv, hln⟩ := hresolve cp hcp hcpd
    rw [hlv, if_pos hcpd]
    rfl
  have heq1 : ((((finalGridOf objects).getD r []).enum.map fun cp =>
      if cp.2 ≠ dd then
        match List.lookup (r, cp.1) (positionMapOf objects) with
        | some deskId =>
          match List.lookup deskId (deskNumberMap objects) with
          | some deskNumber => labelOf deskNumber
          | none => dd
        | none => dd
      else dd).filter fun s => s ≠ dd) =
      (((((finalGridOf objects).getD r []).enum.filter fun cp => cp.2 ≠ dd).map
        fun cp => ((r, cp.1),
          (List.lookup (r, cp.1) (positionMapOf objects)).getD 0)).map
        fun e => numLabelOf objects e.2) := by
    rw [filter_ne_dd_map _ _ hiff, List.map_congr_left hmapeq, List.map_map]
    rfl
  rw [heq1]
  exact (row_filled_entries_perm objects hobj htype r hr).map _

theorem positionMap_label_perm (objects : List LayoutObject) (hobj : objects ≠ [])
    (htype : ∀ d ∈ objects, d.type ≠ dd)
    (hids : (objects.map LayoutObject.id).Nodup) :
    List.Perm ((positionMapOf objects).map fun e => numLabelOf objects e.2)
      ((List.range objects.length).map fun i => labelOf (i + 1)) := by
  have h1 : (positionMapOf objects).map (fun e => numLabelOf objects e.2) =
      ((positionMapOf objects).map Prod.snd).map fun v => numLabelOf objects v := by
    rw [List.map_map]
    rfl
  rw [h1]
  refine ((positionMap_vals_perm objects hobj htype).map
    fun v => numLabelOf objects v).trans ?_
  refine (((List.perm_insertionSort (fun a b => cmpUI a b ≤ 0) objects).symm.map
    LayoutObject.id).map fun v => numLabelOf objects v).trans ?_
  have h4 : (((uiSorted objects).map LayoutObject.id).map
      fun v => numLabelOf objects v) =
      (List.range objects.length).map fun i => labelOf (i + 1) := by
    have hlen : (uiSorted objects).length = objects.length :=
      (List.perm_insertionSort _ objects).length_eq
    refine List.ext_getElem ?_ ?_
    · simp [hlen]
    · intro i h1i h2i
      simp only [List.getElem_map, List.getElem_range]
      have hi : i < (uiSorted objects).length := by simpa using h1i
      have hlk := lookup_deskNumberMap objects hids i hi
      rw [List.get_eq_getElem] at hlk
      unfold numLabelOf
      rw [hlk]
  have hgoal : (List.map (fun v => numLabelOf objects v)
      (List.map LayoutObject.id (List.insertionSort (fun a b => cmpUI a b ≤ 0) objects))) =
      (((uiSorted objects).map LayoutObject.id).map fun v => numLabelOf objects v) := rfl
  rw [hgoal, h4]

theorem numbered_labels_perm (objects : List LayoutObject) (hobj : objects ≠ [])
    (htype : ∀ d ∈ objects, d.type ≠ dd)
    (hids : (objects.map LayoutObject.id).Nodup) :
    List.Perm ((numberedGridOf objects).flatten.filter fun s => s ≠ dd)
      ((List.range objects.length).map fun i => labelOf (i + 1)) := by
  rw [List.filter_flatten]
  have hf2 : List.Forall₂ List.Perm
      ((numberedGridOf objects).map fun row => row.filter fun s => s ≠ dd)
      ((rowsOf objects).enum.map fun p =>
        ((rowResult objects p.1 p.2).2).map fun e => numLabelOf objects e.2) := by
    rw [List.forall₂_iff_get]
    refine ⟨by simp [numberedGrid_length, List.enum_length], ?_⟩
    intro i h1i h2i
    rw [List.get_eq_getElem, List.get_eq_getElem, List.getElem_map, List.getElem_map,
      List.getElem_enum]
    have hi : i < (rowsOf objects).length := by simpa [List.enum_length] using h2i
    have h := numbered_row_label_perm objects hobj htype hids i hi
    rw [List.getD_eq_getElem _ _ (by rw [numberedGrid_length]; exact hi),
      List.getD_eq_getElem _ _ hi] at h
    exact h
  refine (flatten_perm_of_forall₂ hf2).trans ?_
  have h6 : ((rowsOf objects).enum.map fun p =>
      ((rowResult objects p.1 p.2).2).map fun e => numLabelOf objects e.2) =
      (((rowsOf objects).enum.map fun p => (rowResult objects p.1 p.2).2).map
        (List.map fun e => numLabelOf objects e.2)) := by
    rw [List.map_map]
    rfl
  have h5 : ((rowsOf objects).enum.map fun p =>
      ((rowResult objects p.1 p.2).2).map fun e => numLabelOf objects e.2).flatten =
      (positionMapOf objects).map fun e => numLabelOf objects e.2 := by
    rw [h6]
    unfold positionMapOf
    rw [List.map_flatten]
  rw [h5]
  exact positionMap_label_perm objects hobj htype hids

/-- Claim C4 counterexample: the three desks of `cycleObjects` have distinct
ids and palette typeCodes, and in the spec's visual order the desk with id 2
(front-most, y largest by more than the grouping tolerance) precedes the desk
with id 0; yet the numbering assigns it label `L3` while the desk with id 0
gets `L1` — the numbered grid shows `L1` in its first (back) row and `L3` in
its last (front) row — so reading the labels in front-to-back visual order
does not yield `L1, L2, L3`. -/
theorem numbered_matrix_not_visual_order :
    (∀ d ∈ cycleObjects, d.type ∈ PALETTE_DESKS.map Prod.fst) ∧
    (cycleObjects.map LayoutObject.id).Nodup ∧
    visualPrec (cycleObjects.getD 2 default) (cycleObjects.getD 0 default) ∧
    List.lookup (cycleObjects.getD 2 default).id (deskNumberMap cycleObjects) =
      some 3 ∧
    List.lookup (cycleObjects.getD 0 default).id (deskNumberMap cycleObjects) =
      some 1 ∧
    ((numberedGridOf cycleObjects).getD 1 []).getD 0 dd = labelOf 3 ∧
    ((numberedGridOf cycleObjects).getD 0 []).getD 0 dd = labelOf 1 :=
  of_decide_eq_true (by with_unfolding_all rfl)

/-- Claim C4 (amended): for desks with pairwise-distinct ids, non-`"--"`
typeCodes, and positions that determine an unambiguous visual order (any two
desks share their exact `y` or are vertically separated by more than the
half-desk-height tolerance), the numbered grid shows exactly the labels
`L1` … `Ln`, each exactly once; the UI sort underlying the numbering is
pairwise ordered by the spec's front-to-back/left-to-right visual order, and
the desk at sorted position `i` is numbered `i + 1`.  The claim's unrestricted
form is false when the tolerance straddles rows (see the counterexample). -/
theorem numbered_matrix_labels_exact (objects : List LayoutObject)
    (hobj : objects ≠ [])
    (hids : (objects.map LayoutObject.id).Nodup)
    (htype : ∀ d ∈ objects, d.type ≠ dd)
    (hsep : objects.Pairwise fun d e =>
      (d.y = e.y ∧ d.x ≠ e.x) ∨ |d.y - e.y| > DESK_HEIGHT_UNITS / 2) :
    (convertObjectsToLayoutMatrix objects).numberedMatrix =
      jsJoin ['\n'] ((numberedGridOf objects).map fun row =>
        jsJoin [','] (row.map (padEnd 5))) ∧
    List.Perm ((numberedGridOf objects).flatten.filter fun s => s ≠ dd)
      ((List.range objects.length).map fun i => labelOf (i + 1)) ∧
    (uiSorted objects).Pairwise visualPrec ∧
    (∀ i : Nat, ∀ hi : i < (uiSorted objects).length,
      List.lookup ((uiSorted objects).get ⟨i, hi⟩).id (deskNumberMap objects) =
        some (i + 1)) := by
  refine ⟨?_, numbered_labels_perm objects hobj htype hids,
    uiSorted_pairwise_visualPrec objects hsep,
    lookup_deskNumberMap objects hids⟩
  rw [convert_eq objects hobj]
  rfl

/-- Witness for amended claim C4, at the concrete two-desk layout. -/
theorem numbered_matrix_labels_exact_witness :
    List.Perm ((numberedGridOf rtObjects).flatten.filter fun s => s ≠ dd)
      ((List.range rtObjects.length).map fun i => labelOf (i + 1)) :=
  (numbered_matrix_labels_exact rtObjects
    (of_decide_eq_true (by with_unfolding_all rfl))
    (of_decide_eq_true (by with_unfolding_all rfl))
    (of_decide_eq_true (by with_unfolding_all rfl))
    (of_decide_eq_true (by with_unfolding_all rfl))).2.1
